import Mathlib

/-!
# Verification of the wyag core against its specification

Shallow embedding of the core of the `wyag` content-addressed revision
store (Python sources under `src/wyag/`).  Byte strings are modelled as
`List Nat` (each element a byte value); Python's `bytes.find` with its
`-1` sentinel is modelled by `pyFind` returning an `Int`; fallible
Python code (assertions, `IndexError`, `KeyError`, `ValueError`,
`struct.error`) is modelled with `Except`.  Unbounded recursion in the
source (which Python surfaces as `RecursionError` or an infinite loop)
is modelled with a fuel parameter whose exhaustion yields a dedicated
error value.
-/

deriving instance DecidableEq for Except

namespace Wyag

/-- Index of the first occurrence of byte `c` in `l`, if any. -/
def firstIdx? (c : Nat) : List Nat → Option Nat
  | [] => none
  | x :: r => if x = c then some 0 else (firstIdx? c r).map (· + 1)

/-- Python `raw.find(bytes([c]), start)`: index of the first occurrence of
byte `c` at position `start` or later, `-1` if there is none. -/
def pyFind (raw : List Nat) (c : Nat) (start : Nat) : Int :=
  match firstIdx? c (raw.drop start) with
  | some j => ((start + j : Nat) : Int)
  | none => -1

/-- Python `raw[i]` for a nonnegative index: `none` models `IndexError`. -/
def pyGet (raw : List Nat) (i : Nat) : Option Nat := raw[i]?

/-- Python `raw[a:e]` with a nonnegative start and a possibly negative end
(a negative end counts from the end of the string, as in `raw[a:-1]`). -/
def pySlice (raw : List Nat) (a : Nat) (e : Int) : List Nat :=
  let ee : Int := if e < 0 then (raw.length : Int) + e else e
  (raw.take ee.toNat).drop a

/-- Python `raw[a:]`. -/
def pySliceFrom (raw : List Nat) (a : Nat) : List Nat := raw.drop a

/-! ## KVLM codec (`src/wyag/objects.py`, `kvlm_parse` / `kvlm_serialize`)

A KVLM mapping is an insertion-ordered dictionary from byte-string keys
to lists of byte-string values (`collections.OrderedDict` in the
source), modelled as an association list with pairwise-distinct keys. -/

abbrev KVLM := List (List Nat × List (List Nat))

/-- Failure modes of the KVLM codec: a failed `assert`, an out-of-range
byte access, a missing dictionary key, and exhaustion of the fuel that
stands in for the source's unbounded recursion. -/
inductive KvlmErr where
  | assertFail
  | indexError
  | keyError
  | fuelOut
  deriving DecidableEq, Repr

/-- `dct[key].append(value)` when `key in dct`, else `dct[key] = [value]`:
appends `v` to the value list of `k` in place, or appends a fresh entry
at the end (insertion order of `OrderedDict`). -/
def dctInsert (dct : KVLM) (k : List Nat) (v : List Nat) : KVLM :=
  match dct with
  | [] => [(k, [v])]
  | (k1, vs) :: rest =>
      if k1 = k then (k1, vs ++ [v]) :: rest
      else (k1, vs) :: dctInsert rest k v

/-- `dct[k] = vs`: overwrites the value at `k` in place (keeping its
position, as `OrderedDict` assignment does) or appends a fresh entry. -/
def dctSet (dct : KVLM) (k : List Nat) (vs : List (List Nat)) : KVLM :=
  match dct with
  | [] => [(k, vs)]
  | (k1, vs1) :: rest =>
      if k1 = k then (k1, vs) :: rest
      else (k1, vs1) :: dctSet rest k vs

/-- Ordered-dictionary lookup. -/
def dctFind (dct : KVLM) (k : List Nat) : Option (List (List Nat)) :=
  match dct with
  | [] => none
  | (k1, vs) :: rest => if k1 = k then some vs else dctFind rest k

/-- `v.replace(b'\n', b'\n ')` — the continuation-line re-wrapping done by
`kvlm_serialize`. -/
def wrapNl : List Nat → List Nat
  | [] => []
  | c :: r => if c = 10 then 10 :: 32 :: wrapNl r else c :: wrapNl r

/-- `v.replace(b'\n ', b'\n')` — the left-to-right non-overlapping
replacement dropping the leading space of each continuation line, done by
`kvlm_parse`. -/
def unwrapNlSp : List Nat → List Nat
  | [] => []
  | [c] => [c]
  | c :: d :: r =>
      if c = 10 ∧ d = 32 then 10 :: unwrapNlSp r
      else c :: unwrapNlSp (d :: r)

/-- The `while True` loop of `kvlm_parse` locating the end of a value:
`end = raw.find(b'\n', end+1)` until `raw[end+1] != ord(' ')`.  The fuel
models the loop's potential divergence on malformed input. -/
def kvlmScanEnd (raw : List Nat) : Nat → Int → Except KvlmErr Int
  | 0, _ => .error .fuelOut
  | fuel + 1, e =>
      let e2 := pyFind raw 10 (e + 1).toNat
      match pyGet raw (e2 + 1).toNat with
      | none => .error .indexError
      | some b => if b ≠ 32 then .ok e2 else kvlmScanEnd raw fuel e2

/-- `kvlm_parse(raw, start, dct)` (recursion made explicit with fuel).
The base case requires `nl == start` (the source's `assert`); the
recursive case reads a key (bytes before the first space), scans to the
end of the value, folds continuation lines, and recurses at `end+1`. -/
def kvlmParseGo (raw : List Nat) : Nat → Nat → KVLM → Except KvlmErr KVLM
  | 0, _, _ => .error .fuelOut
  | fuel + 1, start, dct =>
      let spc := pyFind raw 32 start
      let nl := pyFind raw 10 start
      if spc < 0 ∨ nl < spc then
        if nl = (start : Int) then
          .ok (dctSet dct [] [pySliceFrom raw (start + 1)])
        else .error .assertFail
      else
        let key := pySlice raw start spc
        (kvlmScanEnd raw (2 * raw.length + 4) (start : Int)).bind fun e =>
          let value := unwrapNlSp (pySlice raw (spc + 1).toNat e)
          kvlmParseGo raw fuel (e + 1).toNat (dctInsert dct key value)

/-- `kvlm_parse(raw)`: entry point with empty dictionary and start 0. -/
def kvlmParse (raw : List Nat) : Except KvlmErr KVLM :=
  kvlmParseGo raw (raw.length + 1) 0 []

/-- The field-emitting loop of `kvlm_serialize`: for every key except
`b''`, in insertion order, one `key SP wrapped-value NL` line per value. -/
def kvlmSerializeFields (kvlm : KVLM) : List Nat :=
  kvlm.foldl
    (fun acc p =>
      if p.1 = [] then acc
      else p.2.foldl (fun a v => a ++ p.1 ++ 32 :: (wrapNl v ++ [10])) acc)
    []

/-- `kvlm_serialize(kvlm)`: fields, then a blank line, then the joined
message list at key `b''` (whose absence raises `KeyError`). -/
def kvlmSerialize (kvlm : KVLM) : Except KvlmErr (List Nat) :=
  match dctFind kvlm [] with
  | none => .error .keyError
  | some msgs => .ok (kvlmSerializeFields kvlm ++ 10 :: msgs.flatten)

/-! ### Facts about the byte-level helpers -/

theorem firstIdx?_of_decomp (c : Nat) (u t : List Nat) (hu : c ∉ u) :
    firstIdx? c (u ++ c :: t) = some u.length := by
  induction u with
  | nil => simp [firstIdx?]
  | cons a u ih =>
      have ha : a ≠ c := by intro h; exact hu (by simp [h])
      have hu' : c ∉ u := fun h => hu (by simp [h])
      simp [firstIdx?, ha, ih hu']

theorem firstIdx?_eq_none_of_not_mem (c : Nat) (l : List Nat) (h : c ∉ l) :
    firstIdx? c l = none := by
  induction l with
  | nil => rfl
  | cons a r ih =>
      have ha : a ≠ c := by intro hh; exact h (by simp [hh])
      have : c ∉ r := fun hh => h (by simp [hh])
      simp [firstIdx?, ha, ih this]

theorem firstIdx?_spec (c : Nat) (l : List Nat) (j : Nat)
    (h : firstIdx? c l = some j) : c ∉ l.take j ∧ l[j]? = some c := by
  induction l generalizing j with
  | nil => simp [firstIdx?] at h
  | cons a r ih =>
      by_cases ha : a = c
      · simp [firstIdx?, ha] at h
        subst h
        simp [ha]
      · simp [firstIdx?, ha] at h
        obtain ⟨j2, hj2, rfl⟩ := h
        obtain ⟨h1, h2⟩ := ih j2 hj2
        refine ⟨?_, by simpa using h2⟩
        simp [List.take_succ_cons, ha, h1]
        intro hh
        exact ha hh.symm

theorem firstIdx?_lt_of_mem_take (c : Nat) (l : List Nat) (j : Nat)
    (h : c ∈ l.take j) : ∃ j2, firstIdx? c l = some j2 ∧ j2 < j := by
  induction l generalizing j with
  | nil => simp at h
  | cons a r ih =>
      cases j with
      | zero => simp at h
      | succ j =>
          by_cases ha : a = c
          · exact ⟨0, by simp [firstIdx?, ha], by omega⟩
          · simp [List.take_succ_cons] at h
            rcases h with h | h
            · exact absurd h.symm ha
            · obtain ⟨j2, hj2, hlt⟩ := ih j h
              exact ⟨j2 + 1, by simp [firstIdx?, ha, hj2], by omega⟩

theorem pyFind_decomp (raw : List Nat) (c : Nat) (start : Nat) (u t : List Nat)
    (h : raw.drop start = u ++ c :: t) (hu : c ∉ u) :
    pyFind raw c start = ((start + u.length : Nat) : Int) := by
  simp [pyFind, h, firstIdx?_of_decomp c u t hu]

theorem pyFind_none (raw : List Nat) (c : Nat) (start : Nat)
    (h : c ∉ raw.drop start) : pyFind raw c start = -1 := by
  simp [pyFind, firstIdx?_eq_none_of_not_mem c _ h]

theorem pySlice_decomp (raw : List Nat) (a : Nat) (v t : List Nat)
    (h : raw.drop a = v ++ t) (ha : a ≤ raw.length) :
    pySlice raw a ((a + v.length : Nat) : Int) = v := by
  have hnonneg : ¬ (((a + v.length : Nat) : Int) < 0) := by omega
  have htonat : (((a + v.length : Nat) : Int)).toNat = a + v.length := by omega
  simp only [pySlice, hnonneg, if_false, htonat]
  rw [List.take_add, h, List.take_left]
  have hlen : (raw.take a).length = a := by simp [ha]
  rw [List.drop_left' hlen]

theorem pyGet_drop (raw : List Nat) (a k : Nat) :
    pyGet raw (a + k) = (raw.drop a)[k]? := by
  simp [pyGet, List.getElem?_drop]

theorem wrapNl_cons_of_ne (c : Nat) (r : List Nat) (h : c ≠ 10) :
    wrapNl (c :: r) = c :: wrapNl r := by
  simp [wrapNl, h]

theorem wrapNl_nl (r : List Nat) : wrapNl (10 :: r) = 10 :: 32 :: wrapNl r := by
  simp [wrapNl]

theorem length_le_wrapNl (v : List Nat) : v.length ≤ (wrapNl v).length := by
  induction v with
  | nil => simp [wrapNl]
  | cons c r ih =>
      by_cases h : c = 10
      · subst h; simp [wrapNl]; omega
      · simp [wrapNl, h]; omega

theorem unwrapNlSp_nl_sp (x : List Nat) :
    unwrapNlSp (10 :: 32 :: x) = 10 :: unwrapNlSp x := by
  simp [unwrapNlSp]

theorem unwrapNlSp_cons_cons (c d : Nat) (r : List Nat) (h : ¬ (c = 10 ∧ d = 32)) :
    unwrapNlSp (c :: d :: r) = c :: unwrapNlSp (d :: r) := by
  simp only [unwrapNlSp, if_neg h]

theorem wrapNl_eq_nil (r : List Nat) (h : wrapNl r = []) : r = [] := by
  cases r with
  | nil => rfl
  | cons a s =>
      by_cases ha : a = 10 <;> simp [wrapNl, ha] at h

theorem unwrapNlSp_wrapNl (v : List Nat) : unwrapNlSp (wrapNl v) = v := by
  induction v with
  | nil => rfl
  | cons c r ih =>
      by_cases h : c = 10
      · subst h
        rw [wrapNl_nl, unwrapNlSp_nl_sp, ih]
      · rw [wrapNl_cons_of_ne c r h]
        cases hw : wrapNl r with
        | nil =>
            rw [wrapNl_eq_nil r hw]
            rfl
        | cons w ws =>
            rw [unwrapNlSp_cons_cons c w ws (by simp [h]), ← hw, ih]

/-! ### Facts about the ordered-dictionary operations -/

/-- The keys of a KVLM mapping, in insertion order. -/
def kvKeys (m : KVLM) : List (List Nat) := m.map Prod.fst

@[simp] theorem kvKeys_nil : kvKeys ([] : KVLM) = [] := rfl

@[simp] theorem kvKeys_cons (p : List Nat × List (List Nat)) (m : KVLM) :
    kvKeys (p :: m) = p.1 :: kvKeys m := rfl

@[simp] theorem kvKeys_append (a b : KVLM) :
    kvKeys (a ++ b) = kvKeys a ++ kvKeys b := by
  simp [kvKeys]

theorem dctInsert_fresh (d : KVLM) (k v : List Nat) (h : k ∉ kvKeys d) :
    dctInsert d k v = d ++ [(k, [v])] := by
  induction d with
  | nil => rfl
  | cons p rest ih =>
      obtain ⟨k1, vs⟩ := p
      have hk : k1 ≠ k := by
        intro hh; exact h (by simp [kvKeys, hh])
      have h' : k ∉ kvKeys rest := by
        intro hh; exact h (by simp [kvKeys] at hh ⊢; exact Or.inr hh)
      simp [dctInsert, hk, ih h']

theorem dctSet_fresh (d : KVLM) (k : List Nat) (vs : List (List Nat))
    (h : k ∉ kvKeys d) : dctSet d k vs = d ++ [(k, vs)] := by
  induction d with
  | nil => rfl
  | cons p rest ih =>
      obtain ⟨k1, vs1⟩ := p
      have hk : k1 ≠ k := by
        intro hh; exact h (by simp [kvKeys, hh])
      have h' : k ∉ kvKeys rest := by
        intro hh; exact h (by simp [kvKeys] at hh ⊢; exact Or.inr hh)
      simp [dctSet, hk, ih h']

theorem dctInsert_append_last (d : KVLM) (k v : List Nat) (vs : List (List Nat))
    (h : k ∉ kvKeys d) :
    dctInsert (d ++ [(k, vs)]) k v = d ++ [(k, vs ++ [v])] := by
  induction d with
  | nil => simp [dctInsert]
  | cons p rest ih =>
      obtain ⟨k1, vs1⟩ := p
      have hk : k1 ≠ k := by
        intro hh; exact h (by simp [kvKeys, hh])
      have h' : k ∉ kvKeys rest := by
        intro hh; exact h (by simp [kvKeys] at hh ⊢; exact Or.inr hh)
      simp [dctInsert, hk, ih h']

theorem dctFind_append_right (d e : KVLM) (k : List Nat) (h : k ∉ kvKeys d) :
    dctFind (d ++ e) k = dctFind e k := by
  induction d with
  | nil => rfl
  | cons p rest ih =>
      obtain ⟨k1, vs1⟩ := p
      have hk : k1 ≠ k := by
        intro hh; exact h (by simp [kvKeys, hh])
      have h' : k ∉ kvKeys rest := by
        intro hh; exact h (by simp [kvKeys] at hh ⊢; exact Or.inr hh)
      simp [dctFind, hk, ih h']

theorem kvKeys_dctInsert (d : KVLM) (k v : List Nat) :
    kvKeys (dctInsert d k v) =
      if k ∈ kvKeys d then kvKeys d else kvKeys d ++ [k] := by
  induction d with
  | nil => simp [dctInsert, kvKeys]
  | cons p rest ih =>
      obtain ⟨k1, vs1⟩ := p
      by_cases hk : k1 = k
      · subst hk
        simp [dctInsert]
      · have hne : k ≠ k1 := fun hh => hk hh.symm
        simp only [dctInsert, if_neg hk, kvKeys_cons, ih]
        by_cases hmem : k ∈ kvKeys rest
        · simp [hmem, hne]
        · simp [hmem, hne]

theorem kvKeys_dctSet (d : KVLM) (k : List Nat) (vs : List (List Nat)) :
    kvKeys (dctSet d k vs) =
      if k ∈ kvKeys d then kvKeys d else kvKeys d ++ [k] := by
  induction d with
  | nil => simp [dctSet, kvKeys]
  | cons p rest ih =>
      obtain ⟨k1, vs1⟩ := p
      by_cases hk : k1 = k
      · subst hk
        simp [dctSet]
      · have hne : k ≠ k1 := fun hh => hk hh.symm
        simp only [dctSet, if_neg hk, kvKeys_cons, ih]
        by_cases hmem : k ∈ kvKeys rest
        · simp [hmem, hne]
        · simp [hmem, hne]

theorem mem_dctInsert (d : KVLM) (k v : List Nat) (p : List Nat × List (List Nat))
    (hp : p ∈ dctInsert d k v) :
    p ∈ d ∨ (∃ vs, (k, vs) ∈ d ∧ p = (k, vs ++ [v])) ∨ p = (k, [v]) := by
  induction d with
  | nil =>
      simp [dctInsert] at hp
      exact Or.inr (Or.inr hp)
  | cons q rest ih =>
      obtain ⟨k1, vs1⟩ := q
      by_cases hk : k1 = k
      · subst hk
        simp [dctInsert] at hp
        rcases hp with hp | hp
        · exact Or.inr (Or.inl ⟨vs1, by simp, hp⟩)
        · exact Or.inl (by simp [hp])
      · simp [dctInsert, hk] at hp
        rcases hp with hp | hp
        · exact Or.inl (by simp [hp])
        · rcases ih hp with h1 | h2 | h3
          · exact Or.inl (by simp [h1])
          · obtain ⟨vs, hvs, hpe⟩ := h2
            exact Or.inr (Or.inl ⟨vs, by simp [hvs], hpe⟩)
          · exact Or.inr (Or.inr h3)

theorem mem_dctSet (d : KVLM) (k : List Nat) (vs : List (List Nat))
    (p : List Nat × List (List Nat)) (hp : p ∈ dctSet d k vs) :
    p ∈ d ∨ p = (k, vs) := by
  induction d with
  | nil =>
      simp [dctSet] at hp
      exact Or.inr hp
  | cons q rest ih =>
      obtain ⟨k1, vs1⟩ := q
      by_cases hk : k1 = k
      · subst hk
        simp [dctSet] at hp
        rcases hp with hp | hp
        · exact Or.inr (by simp [hp])
        · exact Or.inl (by simp [hp])
      · simp [dctSet, hk] at hp
        rcases hp with hp | hp
        · exact Or.inl (by simp [hp])
        · rcases ih hp with h1 | h2
          · exact Or.inl (by simp [h1])
          · exact Or.inr h2

theorem dctFind_dctSet_self (d : KVLM) (k : List Nat) (vs : List (List Nat)) :
    dctFind (dctSet d k vs) k = some vs := by
  induction d with
  | nil => simp [dctSet, dctFind]
  | cons q rest ih =>
      obtain ⟨k1, vs1⟩ := q
      by_cases hk : k1 = k
      · subst hk
        simp [dctSet, dctFind]
      · simp [dctSet, dctFind, hk, ih]

/-! ### A structural view of the serializer -/

/-- One serialized field line: `key SP wrapped-value NL`. -/
def lineOf (k v : List Nat) : List Nat := k ++ 32 :: (wrapNl v ++ [10])

/-- The bytes `kvlm_serialize` emits for one dictionary entry. -/
def entryOut (p : List Nat × List (List Nat)) : List Nat :=
  if p.1 = [] then [] else (p.2.map (lineOf p.1)).flatten

theorem foldl_append_line (k : List Nat) (vs : List (List Nat)) (acc : List Nat) :
    vs.foldl (fun a v => a ++ k ++ 32 :: (wrapNl v ++ [10])) acc
      = acc ++ (vs.map (lineOf k)).flatten := by
  induction vs generalizing acc with
  | nil => simp
  | cons v vs ih =>
      simp only [List.foldl_cons, List.map_cons, List.flatten_cons, ih, lineOf]
      simp

theorem serializeFields_eq_flatten (m : KVLM) :
    kvlmSerializeFields m = (m.map entryOut).flatten := by
  suffices h : ∀ acc : List Nat,
      m.foldl
        (fun acc p =>
          if p.1 = [] then acc
          else p.2.foldl (fun a v => a ++ p.1 ++ 32 :: (wrapNl v ++ [10])) acc)
        acc = acc ++ (m.map entryOut).flatten by
    simpa [kvlmSerializeFields] using h []
  induction m with
  | nil => simp
  | cons p rest ih =>
      intro acc
      by_cases hk : p.1 = []
      · obtain ⟨k0, vs0⟩ := p
        have hk' : k0 = [] := hk
        subst hk'
        rw [List.foldl_cons, List.map_cons, List.flatten_cons]
        have he : entryOut (([] : List Nat), vs0) = [] := by simp [entryOut]
        rw [he, List.nil_append]
        exact ih acc
      · simp only [List.foldl_cons, hk, if_false, List.map_cons, List.flatten_cons]
        rw [foldl_append_line, ih]
        simp [entryOut, hk]

theorem serializeFields_cons (p : List Nat × List (List Nat)) (m : KVLM) :
    kvlmSerializeFields (p :: m) = entryOut p ++ kvlmSerializeFields m := by
  simp [serializeFields_eq_flatten]

theorem serializeFields_nil : kvlmSerializeFields [] = [] := rfl

/-! ### Running the parser over serialized bytes -/

theorem length_wrapNl_cons_ne (c : Nat) (r : List Nat) (h : c ≠ 10) :
    (wrapNl (c :: r)).length = (wrapNl r).length + 1 := by
  rw [wrapNl_cons_of_ne c r h]; rfl

theorem kvlmScanEnd_ok (raw : List Nat) (v : List Nat) :
    ∀ (w : List Nat) (e fuel r0 : Nat) (rest2 : List Nat),
    raw.drop (e + 1) = w ++ wrapNl v ++ 10 :: r0 :: rest2 →
    r0 ≠ 32 →
    10 ∉ w →
    v.length + 1 ≤ fuel →
    kvlmScanEnd raw fuel ((e : Nat) : Int) =
      .ok ((e + 1 + w.length + (wrapNl v).length : Nat) : Int) := by
  induction v with
  | nil =>
      intro w e fuel r0 rest2 hdrop hr0 hw hfuel
      obtain ⟨fuel, rfl⟩ : ∃ f, fuel = f + 1 := ⟨fuel - 1, by omega⟩
      have hdrop' : raw.drop (e + 1) = w ++ 10 :: (r0 :: rest2) := by
        simpa [wrapNl] using hdrop
      have hfind : pyFind raw 10 (e + 1) = ((e + 1 + w.length : Nat) : Int) :=
        pyFind_decomp raw 10 (e + 1) w (r0 :: rest2) hdrop' hw
      have htn : (((e : Nat) : Int) + 1).toNat = e + 1 := by omega
      have hget : pyGet raw ((e + 1 + w.length) + 1) = some r0 := by
        have h1 : (e + 1 + w.length) + 1 = (e + 1) + (w.length + 1) := by omega
        rw [h1, pyGet_drop, hdrop']
        rw [List.getElem?_append_right (by omega)]
        rw [show w.length + 1 - w.length = 1 from by omega]
        simp
      have htn2 : ((((e + 1 + w.length : Nat) : Int)) + 1).toNat
          = (e + 1 + w.length) + 1 := by omega
      simp only [kvlmScanEnd, htn, hfind, htn2, hget, wrapNl]
      simp [hr0]
  | cons c vr ih =>
      intro w e fuel r0 rest2 hdrop hr0 hw hfuel
      by_cases hc : c = 10
      · subst hc
        obtain ⟨fuel, rfl⟩ : ∃ f, fuel = f + 1 := ⟨fuel - 1, by omega⟩
        rw [wrapNl_nl] at hdrop
        have hdrop' : raw.drop (e + 1) =
            w ++ 10 :: (32 :: (wrapNl vr ++ 10 :: r0 :: rest2)) := by
          simpa [List.append_assoc] using hdrop
        have hfind : pyFind raw 10 (e + 1) = ((e + 1 + w.length : Nat) : Int) :=
          pyFind_decomp raw 10 (e + 1) w _ hdrop' hw
        have htn : (((e : Nat) : Int) + 1).toNat = e + 1 := by omega
        have hget : pyGet raw ((e + 1 + w.length) + 1) = some 32 := by
          have h1 : (e + 1 + w.length) + 1 = (e + 1) + (w.length + 1) := by omega
          rw [h1, pyGet_drop, hdrop']
          rw [List.getElem?_append_right (by omega)]
          rw [show w.length + 1 - w.length = 1 from by omega]
          simp
        have htn2 : ((((e + 1 + w.length : Nat) : Int)) + 1).toNat
            = (e + 1 + w.length) + 1 := by omega
        have hrec : raw.drop ((e + 1 + w.length) + 1) =
            [32] ++ wrapNl vr ++ 10 :: r0 :: rest2 := by
          have h1 : (e + 1 + w.length) + 1 = (e + 1) + (w.length + 1) := by omega
          rw [h1, ← List.drop_drop, hdrop']
          rw [show w.length + 1 = w.length + 1 from rfl]
          rw [List.drop_append 1]
          simp
        have hih := ih [32] (e + 1 + w.length) fuel r0 rest2
          (by simpa using hrec) hr0 (by simp) (by simp at hfuel ⊢; omega)
        have hfinal : (e + 1 + w.length) + 1 + ([32] : List Nat).length + (wrapNl vr).length
            = e + 1 + w.length + (wrapNl (10 :: vr)).length := by
          rw [wrapNl_nl]
          simp
          omega
        simp only [kvlmScanEnd, htn, hfind, htn2, hget]
        rw [if_neg (by simp)]
        rw [hih, hfinal]
      · rw [wrapNl_cons_of_ne c vr hc] at hdrop
        have hdrop' : raw.drop (e + 1) =
            (w ++ [c]) ++ wrapNl vr ++ 10 :: r0 :: rest2 := by
          simpa [List.append_assoc] using hdrop
        have hw' : 10 ∉ w ++ [c] := by
          simp [hw]
          intro h10
          exact hc h10.symm
        have hih := ih (w ++ [c]) e fuel r0 rest2 hdrop' hr0 hw'
          (by simp at hfuel ⊢; omega)
        rw [hih]
        have heq : e + 1 + (w ++ [c]).length + (wrapNl vr).length
            = e + 1 + w.length + (wrapNl (c :: vr)).length := by
          rw [length_wrapNl_cons_ne c vr hc]
          simp
          omega
        rw [heq]

theorem except_bind_ok {ε α β : Type} (a : α) (f : α → Except ε β) :
    (Except.ok a : Except ε α).bind f = f a := rfl

theorem exists_first_decomp (c : Nat) (l : List Nat) (h : c ∈ l) :
    ∃ u t, l = u ++ c :: t ∧ c ∉ u := by
  induction l with
  | nil => simp at h
  | cons a r ih =>
      by_cases ha : a = c
      · exact ⟨[], r, by simp [ha], by simp⟩
      · have : c ∈ r := by
          rcases List.mem_cons.mp h with h1 | h1
          · exact absurd h1.symm ha
          · exact h1
        obtain ⟨u, t, rfl, hu⟩ := ih this
        refine ⟨a :: u, t, by simp, ?_⟩
        simp [hu]
        intro hh
        exact ha hh.symm

theorem lt_length_of_drop_ne_nil (l : List Nat) (n : Nat) (h : l.drop n ≠ []) :
    n < l.length := by
  by_contra hc
  exact h (List.drop_eq_nil_of_le (by omega))

/-- One recursive step of `kvlm_parse` across a serialized field line
`key SP wrapped-value NL`: it inserts `(key, value)` and moves `start`
past the line. -/
theorem kvlmParseGo_field (raw : List Nat) (start fuel : Nat) (k v : List Nat)
    (r0 : Nat) (rest2 : List Nat) (dct : KVLM)
    (hdrop : raw.drop start = k ++ 32 :: (wrapNl v ++ 10 :: r0 :: rest2))
    (hk : k ≠ []) (hk32 : 32 ∉ k) (hk10 : 10 ∉ k)
    (hr0 : r0 ≠ 32) :
    kvlmParseGo raw (fuel + 1) start dct =
      kvlmParseGo raw fuel (start + (k.length + 1 + (wrapNl v).length + 1))
        (dctInsert dct k v) := by
  have hne : raw.drop start ≠ [] := by rw [hdrop]; simp [hk]
  have hstart : start < raw.length := lt_length_of_drop_ne_nil raw start hne
  have hlen : raw.length - start
      = k.length + 1 + ((wrapNl v).length + (2 + rest2.length)) := by
    have h2 := congrArg List.length hdrop
    rw [List.length_drop] at h2
    simp only [List.length_append, List.length_cons] at h2
    omega
  -- the first space terminates the key
  have hspc : pyFind raw 32 start = ((start + k.length : Nat) : Int) :=
    pyFind_decomp raw 32 start k _ hdrop hk32
  -- the first newline is somewhere at or after the space
  obtain ⟨u0, t0, hu0, hu0nl⟩ :=
    exists_first_decomp 10 (wrapNl v ++ 10 :: r0 :: rest2) (by simp)
  have hdec : raw.drop start = (k ++ 32 :: u0) ++ 10 :: t0 := by
    rw [hdrop, hu0]; simp
  have hnotin : 10 ∉ k ++ 32 :: u0 := by
    simp [hk10, hu0nl]
  have hnl : pyFind raw 10 start
      = ((start + (k ++ 32 :: u0).length : Nat) : Int) :=
    pyFind_decomp raw 10 start (k ++ 32 :: u0) t0 hdec hnotin
  have hcond : ¬ (pyFind raw 32 start < 0 ∨
      pyFind raw 10 start < pyFind raw 32 start) := by
    rw [hspc, hnl]
    simp only [List.length_append, List.length_cons]
    push_neg
    constructor <;> omega
  -- the key slice
  have hkey : pySlice raw start ((start + k.length : Nat) : Int) = k :=
    pySlice_decomp raw start k _ hdrop (by omega)
  -- the scan over the wrapped value
  obtain ⟨k0, k1, rfl⟩ := List.exists_cons_of_ne_nil hk
  have hdrop1 : raw.drop (start + 1) = (k1 ++ [32]) ++ wrapNl v ++ 10 :: r0 :: rest2 := by
    rw [← List.drop_drop, hdrop]
    simp
  have hscan := kvlmScanEnd_ok raw v (k1 ++ [32]) start (2 * raw.length + 4) r0 rest2
    (by simpa using hdrop1) hr0
    (by
      have : (10 : Nat) ∉ k1 := fun hh => hk10 (by simp [hh])
      simp [this])
    (by
      have := length_le_wrapNl v
      simp only [List.length_cons] at hlen
      omega)
  have hscanpos : start + 1 + (k1 ++ [32]).length + (wrapNl v).length
      = start + (k0 :: k1).length + 1 + (wrapNl v).length := by
    simp
    omega
  -- the value slice
  have hvaldrop : raw.drop (start + (k0 :: k1).length + 1)
      = wrapNl v ++ 10 :: r0 :: rest2 := by
    rw [show start + (k0 :: k1).length + 1 = start + ((k0 :: k1).length + 1) from by omega,
      ← List.drop_drop, hdrop]
    rw [show (k0 :: k1).length + 1 = ((k0 :: k1) ++ [32]).length from by simp]
    rw [show (k0 :: k1) ++ 32 :: (wrapNl v ++ 10 :: r0 :: rest2)
        = ((k0 :: k1) ++ [32]) ++ (wrapNl v ++ 10 :: r0 :: rest2) from by simp]
    rw [List.drop_left]
  have hval : pySlice raw (start + (k0 :: k1).length + 1)
      ((start + (k0 :: k1).length + 1 + (wrapNl v).length : Nat) : Int) = wrapNl v :=
    pySlice_decomp raw (start + (k0 :: k1).length + 1) (wrapNl v)
      (10 :: r0 :: rest2) hvaldrop
      (by simp only [List.length_cons] at hlen ⊢; omega)
  -- put the pieces together
  simp only [kvlmParseGo]
  rw [if_neg hcond, hspc, hscan, hscanpos, except_bind_ok]
  have htn3 : (((start + (k0 :: k1).length : Nat) : Int) + 1).toNat
      = start + (k0 :: k1).length + 1 := by omega
  have htn4 : (((start + (k0 :: k1).length + 1 + (wrapNl v).length : Nat) : Int) + 1).toNat
      = start + ((k0 :: k1).length + 1 + (wrapNl v).length + 1) := by omega
  rw [htn3, htn4, hval, unwrapNlSp_wrapNl, hkey]

/-- The base case of `kvlm_parse` at a blank line: the remainder becomes
the message stored at the empty key. -/
theorem kvlmParseGo_base (raw : List Nat) (start fuel : Nat) (msg : List Nat)
    (dct : KVLM) (hdrop : raw.drop start = 10 :: msg) :
    kvlmParseGo raw (fuel + 1) start dct = .ok (dctSet dct [] [msg]) := by
  have hnl : pyFind raw 10 start = ((start + 0 : Nat) : Int) := by
    have := pyFind_decomp raw 10 start [] msg (by simpa using hdrop) (by simp)
    simpa using this
  have hmsg : pySliceFrom raw (start + 1) = msg := by
    rw [pySliceFrom, ← List.drop_drop, hdrop]
    simp
  have hcond : pyFind raw 32 start < 0 ∨
      pyFind raw 10 start < pyFind raw 32 start := by
    by_cases hmem : 32 ∈ raw.drop start
    · obtain ⟨u, t, hu, hunotin⟩ := exists_first_decomp 32 _ hmem
      have hune : u ≠ [] := by
        intro hh
        subst hh
        rw [hdrop] at hu
        simp at hu
      obtain ⟨a, u', rfl⟩ := List.exists_cons_of_ne_nil hune
      have hspc := pyFind_decomp raw 32 start (a :: u') t hu hunotin
      right
      rw [hspc, hnl]
      simp only [List.length_cons]
      omega
    · left
      rw [pyFind_none raw 32 start hmem]
      omega
  simp only [kvlmParseGo]
  rw [if_pos hcond, if_pos (by rw [hnl]; simp), hmsg]

theorem length_lineOf (k v : List Nat) :
    (lineOf k v).length = k.length + 1 + ((wrapNl v).length + 1) := by
  simp [lineOf]
  omega

/-- Processing the consecutive serialized lines of one entry `(k, vs)`:
the parser inserts the values one after the other and moves past the
lines. -/
theorem kvlmParseGo_lines (raw : List Nat) (k : List Nat)
    (hk : k ≠ []) (hk32 : 32 ∉ k) (hk10 : 10 ∉ k) :
    ∀ (vs : List (List Nat)) (dct : KVLM) (start fuel : Nat) (t0 : Nat) (t' : List Nat),
    raw.drop start = (vs.map (lineOf k)).flatten ++ t0 :: t' →
    t0 ≠ 32 →
    kvlmParseGo raw (fuel + vs.length) start dct =
      kvlmParseGo raw fuel (start + ((vs.map (lineOf k)).flatten).length)
        (vs.foldl (fun d v => dctInsert d k v) dct) := by
  intro vs
  induction vs with
  | nil =>
      intro dct start fuel t0 t' hdrop ht0
      simp
  | cons v vs ih =>
      intro dct start fuel t0 t' hdrop ht0
      have hshape : raw.drop start
          = k ++ 32 :: (wrapNl v ++ 10 ::
              ((vs.map (lineOf k)).flatten ++ t0 :: t')) := by
        rw [hdrop]
        simp [lineOf]
      obtain ⟨r0, rest2, hrr, hr0⟩ :
          ∃ r0 rest2, (vs.map (lineOf k)).flatten ++ t0 :: t' = r0 :: rest2 ∧ r0 ≠ 32 := by
        cases vs with
        | nil => exact ⟨t0, t', by simp, ht0⟩
        | cons v2 vs2 =>
            obtain ⟨k0, k1, rfl⟩ := List.exists_cons_of_ne_nil hk
            refine ⟨k0, (k1 ++ 32 :: (wrapNl v2 ++ [10]))
                ++ ((vs2.map (lineOf (k0 :: k1))).flatten ++ t0 :: t'), ?_, ?_⟩
            · simp [lineOf]
            · intro hh
              exact hk32 (by simp [hh])

      rw [hrr] at hshape
      have hstep := kvlmParseGo_field raw start (fuel + vs.length) k v r0 rest2 dct
        hshape hk hk32 hk10 hr0
      have hdrop2 : raw.drop (start + (k.length + 1 + (wrapNl v).length + 1))
          = (vs.map (lineOf k)).flatten ++ t0 :: t' := by
        rw [← List.drop_drop, hdrop]
        have h1 : (v :: vs).map (lineOf k) = lineOf k v :: vs.map (lineOf k) := rfl
        rw [h1, List.flatten_cons, List.append_assoc]
        rw [show k.length + 1 + (wrapNl v).length + 1 = (lineOf k v).length from by
          rw [length_lineOf]; omega]
        exact List.drop_left _ _
      have hih := ih (dctInsert dct k v) (start + (k.length + 1 + (wrapNl v).length + 1))
        fuel t0 t' hdrop2 ht0
      have hpos : start + (k.length + 1 + (wrapNl v).length + 1)
            + ((vs.map (lineOf k)).flatten).length
          = start + (((v :: vs).map (lineOf k)).flatten).length := by
        simp [length_lineOf]
        omega
      rw [show fuel + (v :: vs).length = (fuel + vs.length) + 1 from by simp; omega]
      rw [hstep, hih, hpos]
      rw [List.foldl_cons]

theorem foldl_dctInsert_last (k : List Nat) (dct : KVLM) (h : k ∉ kvKeys dct) :
    ∀ (vs : List (List Nat)) (ws : List (List Nat)),
      vs.foldl (fun d v => dctInsert d k v) (dct ++ [(k, ws)])
        = dct ++ [(k, ws ++ vs)] := by
  intro vs
  induction vs with
  | nil => intro ws; simp
  | cons v vs ih =>
      intro ws
      rw [List.foldl_cons, dctInsert_append_last dct k v ws h, ih (ws ++ [v])]
      simp

theorem foldl_dctInsert_fresh (k : List Nat) (dct : KVLM) (h : k ∉ kvKeys dct)
    (v : List Nat) (vs : List (List Nat)) :
    (v :: vs).foldl (fun d v => dctInsert d k v) dct = dct ++ [(k, v :: vs)] := by
  rw [List.foldl_cons, dctInsert_fresh dct k v h, foldl_dctInsert_last k dct h vs [v]]
  simp

/-- Number of serialized field lines of a KVLM mapping. -/
def lineCount (fs : KVLM) : Nat := (fs.map (fun p => p.2.length)).sum

theorem lineCount_cons (p : List Nat × List (List Nat)) (fs : KVLM) :
    lineCount (p :: fs) = p.2.length + lineCount fs := by
  simp [lineCount]

/-- The serialized fields of a well-formed mapping followed by the blank
line never begin with a space byte. -/
theorem serialized_head_ne_sp (fs : KVLM) (msg : List Nat)
    (hwf : ∀ p ∈ fs, (p.1 ≠ [] ∧ 32 ∉ p.1 ∧ 10 ∉ p.1) ∧ p.2 ≠ []) :
    ∃ t0 t', kvlmSerializeFields fs ++ 10 :: msg = t0 :: t' ∧ t0 ≠ 32 := by
  cases fs with
  | nil => exact ⟨10, msg, by simp [serializeFields_nil], by omega⟩
  | cons p fs =>
      obtain ⟨k, vs⟩ := p
      obtain ⟨⟨hk, hk32, hk10⟩, hvs⟩ := hwf (k, vs) (by simp)
      obtain ⟨v, vs', rfl⟩ := List.exists_cons_of_ne_nil hvs
      obtain ⟨k0, k1, rfl⟩ := List.exists_cons_of_ne_nil hk
      refine ⟨k0, (k1 ++ 32 :: (wrapNl v ++ [10]))
          ++ (((vs'.map (lineOf (k0 :: k1))).flatten ++ kvlmSerializeFields fs)
            ++ 10 :: msg), ?_, ?_⟩
      · rw [serializeFields_cons]
        simp [entryOut, lineOf]
      · intro hh
        exact hk32 (by simp [hh])

/-- Main round-trip induction: parsing the serialization of well-formed
fields followed by the blank line and the message reconstructs the
fields and appends the message entry. -/
theorem kvlmParseGo_serialized (raw : List Nat) :
    ∀ (fs : KVLM) (acc : KVLM) (msg : List Nat) (start fuel : Nat),
    raw.drop start = kvlmSerializeFields fs ++ 10 :: msg →
    (∀ p ∈ fs, (p.1 ≠ [] ∧ 32 ∉ p.1 ∧ 10 ∉ p.1) ∧ p.2 ≠ []) →
    (kvKeys fs).Nodup →
    (∀ p ∈ fs, p.1 ∉ kvKeys acc) →
    [] ∉ kvKeys acc →
    lineCount fs + 1 ≤ fuel →
    kvlmParseGo raw fuel start acc = .ok (acc ++ (fs ++ [([], [msg])])) := by
  intro fs
  induction fs with
  | nil =>
      intro acc msg start fuel hdrop hwf hnodup hknotin hempty hfuel
      obtain ⟨f, rfl⟩ : ∃ f, fuel = f + 1 := ⟨fuel - 1, by omega⟩
      rw [serializeFields_nil, List.nil_append] at hdrop
      rw [kvlmParseGo_base raw start f msg acc hdrop]
      rw [dctSet_fresh acc [] [msg] hempty]
      simp
  | cons p fs ih =>
      intro acc msg start fuel hdrop hwf hnodup hknotin hempty hfuel
      obtain ⟨k, vs⟩ := p
      obtain ⟨⟨hk, hk32, hk10⟩, hvs⟩ := hwf (k, vs) (by simp)
      have hwf' : ∀ p ∈ fs, (p.1 ≠ [] ∧ 32 ∉ p.1 ∧ 10 ∉ p.1) ∧ p.2 ≠ [] :=
        fun p hp => hwf p (by simp [hp])
      have hdropE : raw.drop start
          = (vs.map (lineOf k)).flatten ++ (kvlmSerializeFields fs ++ 10 :: msg) := by
        rw [hdrop, serializeFields_cons]
        simp [entryOut, hk]
      obtain ⟨t0, t', htail, ht0⟩ := serialized_head_ne_sp fs msg hwf'
      have hfc : lineCount ((k, vs) :: fs) = vs.length + lineCount fs :=
        lineCount_cons _ _
      obtain ⟨f2, hf2⟩ : ∃ f2, fuel = f2 + vs.length :=
        ⟨fuel - vs.length, by omega⟩
      have hlines := kvlmParseGo_lines raw k hk hk32 hk10 vs acc start f2 t0 t'
        (by rw [hdropE, htail]) ht0
      have hdropNext : raw.drop (start + ((vs.map (lineOf k)).flatten).length)
          = kvlmSerializeFields fs ++ 10 :: msg := by
        rw [← List.drop_drop, hdropE, List.drop_left]
      have hkacc : k ∉ kvKeys acc := hknotin (k, vs) (by simp)
      obtain ⟨v1, vs', rfl⟩ := List.exists_cons_of_ne_nil hvs
      have hfold : (v1 :: vs').foldl (fun d v => dctInsert d k v) acc
          = acc ++ [(k, v1 :: vs')] := foldl_dctInsert_fresh k acc hkacc v1 vs'
      have hih := ih (acc ++ [(k, v1 :: vs')]) msg
        (start + (((v1 :: vs').map (lineOf k)).flatten).length) f2 hdropNext hwf'
        (by
          have := hnodup
          simp at this
          exact this.2)
        (by
          intro p hp
          have h1 : p.1 ∉ kvKeys acc := hknotin p (by simp [hp])
          have h2 : p.1 ≠ k := by
            intro hh
            have hnd := hnodup
            rw [kvKeys_cons] at hnd
            have hnotmem := (List.nodup_cons.mp hnd).1
            have hm : p.1 ∈ kvKeys fs := List.mem_map_of_mem Prod.fst hp
            rw [hh] at hm
            exact hnotmem hm
          simp [h1, h2])
        (by
          simp [hempty]
          intro hh
          exact hk hh)
        (by omega)
      rw [hf2, hlines, hfold, hih]
      simp

theorem pySlice_eq_take (raw : List Nat) (a j : Nat) :
    pySlice raw a ((a + j : Nat) : Int) = (raw.drop a).take j := by
  have h1 : ¬ (((a + j : Nat) : Int) < 0) := by omega
  have h2 : (((a + j : Nat) : Int)).toNat = a + j := by omega
  simp only [pySlice, h1, if_false, h2]
  rw [List.drop_take]
  congr 1
  omega

/-- In the recursive branch of `kvlm_parse` the key contains neither a
space (it stops at the first one) nor a newline (the first newline lies
at or after the first space). -/
theorem key_slice_wf (raw : List Nat) (start : Nat)
    (hbr : ¬ (pyFind raw 32 start < 0 ∨
      pyFind raw 10 start < pyFind raw 32 start)) :
    32 ∉ pySlice raw start (pyFind raw 32 start) ∧
      10 ∉ pySlice raw start (pyFind raw 32 start) := by
  push_neg at hbr
  obtain ⟨h0, hle⟩ := hbr
  cases hj : firstIdx? 32 (raw.drop start) with
  | none =>
      simp [pyFind, hj] at h0
  | some j =>
      have hpf : pyFind raw 32 start = ((start + j : Nat) : Int) := by
        simp [pyFind, hj]
      have hsl : pySlice raw start (pyFind raw 32 start)
          = (raw.drop start).take j := by
        rw [hpf, pySlice_eq_take]
      constructor
      · rw [hsl]
        exact (firstIdx?_spec 32 _ j hj).1
      · rw [hsl]
        intro hmem
        obtain ⟨j2, hj2, hlt⟩ := firstIdx?_lt_of_mem_take 10 _ j hmem
        have hnl : pyFind raw 10 start = ((start + j2 : Nat) : Int) := by
          simp [pyFind, hj2]
        rw [hnl, hpf] at hle
        omega

/-- Invariant of `kvlm_parse` results: every value list is nonempty,
non-empty keys contain neither space nor newline, keys are pairwise
distinct, and the empty key is bound to a one-element list (the
message). -/
theorem kvlmParseGo_inv (raw : List Nat) :
    ∀ (fuel start : Nat) (acc m : KVLM),
    kvlmParseGo raw fuel start acc = .ok m →
    (∀ p ∈ acc, (p.1 ≠ [] → 32 ∉ p.1 ∧ 10 ∉ p.1) ∧ p.2 ≠ []) →
    (kvKeys acc).Nodup →
    ((∀ p ∈ m, (p.1 ≠ [] → 32 ∉ p.1 ∧ 10 ∉ p.1) ∧ p.2 ≠ []) ∧
      (kvKeys m).Nodup ∧ ∃ w, dctFind m [] = some [w]) := by
  intro fuel
  induction fuel with
  | zero =>
      intro start acc m h
      simp [kvlmParseGo] at h
  | succ fuel ih =>
      intro start acc m h hacc hnodup
      rw [kvlmParseGo] at h
      by_cases hbr : pyFind raw 32 start < 0 ∨
          pyFind raw 10 start < pyFind raw 32 start
      · rw [if_pos hbr] at h
        by_cases hnl : pyFind raw 10 start = (start : Int)
        · rw [if_pos hnl] at h
          have hm : m = dctSet acc [] [pySliceFrom raw (start + 1)] := by
            injection h with h2
            exact h2.symm
          subst hm
          refine ⟨?_, ?_, ?_⟩
          · intro p hp
            rcases mem_dctSet acc [] _ p hp with h1 | h1
            · exact hacc p h1
            · rw [h1]
              exact ⟨fun hh => absurd rfl hh, by simp⟩
          · rw [kvKeys_dctSet]
            by_cases hmem : ([] : List Nat) ∈ kvKeys acc
            · rw [if_pos hmem]
              exact hnodup
            · rw [if_neg hmem]
              rw [List.nodup_append]
              refine ⟨hnodup, by simp, ?_⟩
              intro a ha hb
              simp at hb
              subst hb
              exact hmem ha
          · exact ⟨_, dctFind_dctSet_self acc [] _⟩
        · rw [if_neg hnl] at h
          simp at h
      · rw [if_neg hbr] at h
        cases hscan : kvlmScanEnd raw (2 * raw.length + 4) (start : Int) with
        | error err =>
            rw [hscan] at h
            simp [Except.bind] at h
        | ok e =>
            rw [hscan, except_bind_ok] at h
            obtain ⟨hw32, hw10⟩ := key_slice_wf raw start hbr
            refine ih _ _ _ h ?_ ?_
            · intro p hp
              rcases mem_dctInsert acc _ _ p hp with h1 | h1 | h1
              · exact hacc p h1
              · obtain ⟨vs, hvs, rfl⟩ := h1
                refine ⟨fun hh => ⟨hw32, hw10⟩, by simp⟩
              · rw [h1]
                exact ⟨fun hh => ⟨hw32, hw10⟩, by simp⟩
            · rw [kvKeys_dctInsert]
              by_cases hmem : pySlice raw start (pyFind raw 32 start) ∈ kvKeys acc
              · rw [if_pos hmem]
                exact hnodup
              · rw [if_neg hmem]
                rw [List.nodup_append]
                refine ⟨hnodup, by simp, ?_⟩
                intro a ha hb
                simp at hb
                subst hb
                exact hmem ha

theorem eq_dropLast_append_of_getLast? {α : Type} (l : List α) (x : α)
    (h : l.getLast? = some x) : l.dropLast ++ [x] = l := by
  have hne : l ≠ [] := by rintro rfl; simp at h
  rw [List.getLast?_eq_getLast l hne, Option.some.injEq] at h
  rw [← h]
  exact List.dropLast_append_getLast hne

theorem flatten_lines_length_ge (k : List Nat) (vs : List (List Nat)) :
    vs.length ≤ ((vs.map (lineOf k)).flatten).length := by
  induction vs with
  | nil => simp
  | cons v vs ih =>
      simp only [List.map_cons, List.flatten_cons, List.length_append,
        List.length_cons]
      have := length_lineOf k v
      omega

theorem lineCount_le_serialized (fs : KVLM) (hwf : ∀ p ∈ fs, p.1 ≠ []) :
    lineCount fs ≤ (kvlmSerializeFields fs).length := by
  induction fs with
  | nil => simp [lineCount, serializeFields_nil]
  | cons p fs ih =>
      rw [serializeFields_cons, lineCount_cons, List.length_append]
      have h1 : p.1 ≠ [] := hwf p (by simp)
      have h2 : (entryOut p).length ≥ p.2.length := by
        rw [entryOut, if_neg h1]
        exact flatten_lines_length_ge p.1 p.2
      have h3 := ih (fun q hq => hwf q (by simp [hq]))
      omega

/-- C3 (amended): for every mapping produced by `kvlm_parse` whose
empty-key (message) entry is the final entry, serialization succeeds and
parsing the serialization returns exactly the same mapping: key
insertion order, duplicate keys and embedded newlines all survive. -/
theorem c3_kvlm_parse_serialize_roundtrip
    (raw : List Nat) (m : KVLM) (lastv : List (List Nat))
    (hparse : kvlmParse raw = .ok m)
    (hlast : m.getLast? = some ([], lastv)) :
    ∃ s, kvlmSerialize m = .ok s ∧ kvlmParse s = .ok m := by
  obtain ⟨hwf, hnodup, w, hfind⟩ :=
    kvlmParseGo_inv raw (raw.length + 1) 0 [] m hparse (by simp) (by simp)
  have hm : m.dropLast ++ [(([] : List Nat), lastv)] = m :=
    eq_dropLast_append_of_getLast? m _ hlast
  have hkeys : kvKeys m = kvKeys m.dropLast ++ [([] : List Nat)] := by
    conv_lhs => rw [← hm]
    simp [kvKeys]
  rw [hkeys] at hnodup
  obtain ⟨ndfs, -, hdisj⟩ := List.nodup_append.mp hnodup
  have hnotmem : ([] : List Nat) ∉ kvKeys m.dropLast := by
    intro hmem
    exact hdisj hmem (by simp)
  have hfind2 : dctFind m [] = some lastv := by
    conv_lhs => rw [← hm]
    rw [dctFind_append_right _ _ [] hnotmem]
    simp [dctFind]
  have hlastv : lastv = [w] := by
    rw [hfind2] at hfind
    injection hfind
  subst hlastv
  have hwfFs : ∀ p ∈ m.dropLast, (p.1 ≠ [] ∧ 32 ∉ p.1 ∧ 10 ∉ p.1) ∧ p.2 ≠ [] := by
    intro p hp
    have hpm : p ∈ m := by
      rw [← hm]
      exact List.mem_append_left _ hp
    have h1 := hwf p hpm
    have hne : p.1 ≠ [] := by
      intro hh
      apply hnotmem
      rw [← hh]
      exact List.mem_map_of_mem Prod.fst hp
    exact ⟨⟨hne, (h1.1 hne).1, (h1.1 hne).2⟩, h1.2⟩
  have hserFields : kvlmSerializeFields m = kvlmSerializeFields m.dropLast := by
    conv_lhs => rw [← hm]
    rw [serializeFields_eq_flatten, serializeFields_eq_flatten]
    simp [entryOut]
  have hser : kvlmSerialize m
      = .ok (kvlmSerializeFields m.dropLast ++ 10 :: w) := by
    unfold kvlmSerialize
    rw [hfind]
    simp [hserFields]
  refine ⟨_, hser, ?_⟩
  have hfuel : lineCount m.dropLast + 1
      ≤ (kvlmSerializeFields m.dropLast ++ 10 :: w).length + 1 := by
    have := lineCount_le_serialized m.dropLast (fun p hp => (hwfFs p hp).1.1)
    simp only [List.length_append, List.length_cons]
    omega
  have hrt := kvlmParseGo_serialized (kvlmSerializeFields m.dropLast ++ 10 :: w)
    m.dropLast [] w 0 ((kvlmSerializeFields m.dropLast ++ 10 :: w).length + 1)
    (by simp) hwfFs ndfs (by simp) (by simp) hfuel
  rw [kvlmParse, hrt, List.nil_append, hm]

/-- C3 counterexample: the payload `b" x\nk v\n\nm"` is accepted by
`kvlm_parse` (its first field has an empty key, so the message entry
keeps the first position), but re-parsing its serialization yields the
keys in a different insertion order. -/
theorem c3_counterexample :
    kvlmParse [32, 120, 10, 107, 32, 118, 10, 10, 109]
        = .ok [([], [[109]]), ([107], [[118]])] ∧
      kvlmSerialize [([], [[109]]), ([107], [[118]])]
        = .ok [107, 32, 118, 10, 10, 109] ∧
      kvlmParse [107, 32, 118, 10, 10, 109]
        = .ok [([107], [[118]]), ([], [[109]])] ∧
      ([([107], [[118]]), ([], [[109]])] : KVLM)
        ≠ [([], [[109]]), ([107], [[118]])] :=
  ⟨rfl, rfl, rfl, by decide⟩

/-- C3 witness: a well-formed commit-like payload round-trips. -/
theorem c3_witness :
    kvlmParse [107, 32, 118, 10, 10, 109]
        = .ok [([107], [[118]]), ([], [[109]])] ∧
      (([([107], [[118]]), ([], [[109]])] : KVLM).getLast?
        = some ([], [[109]])) ∧
      ∃ s, kvlmSerialize [([107], [[118]]), ([], [[109]])] = .ok s ∧
        kvlmParse s = .ok [([107], [[118]]), ([], [[109]])] :=
  ⟨rfl, rfl,
    c3_kvlm_parse_serialize_roundtrip [107, 32, 118, 10, 10, 109]
      [([107], [[118]]), ([], [[109]])] [[109]] rfl rfl⟩

/-- C10 (amended): every mapping produced by `kvlm_parse` binds the
empty key to a one-element list holding the message, and
`kvlm_serialize` emits the non-empty-key fields first and ends with the
blank-line separator followed by that message. -/
theorem c10_message_entry (raw : List Nat) (m : KVLM)
    (hparse : kvlmParse raw = .ok m) :
    ∃ w, dctFind m [] = some [w] ∧
      kvlmSerialize m = .ok (kvlmSerializeFields m ++ 10 :: w) := by
  obtain ⟨hwf, hnodup, w, hfind⟩ :=
    kvlmParseGo_inv raw (raw.length + 1) 0 [] m hparse (by simp) (by simp)
  refine ⟨w, hfind, ?_⟩
  unfold kvlmSerialize
  rw [hfind]
  simp

/-- C10 counterexample: on the accepted payload `b" a\nq z\n\nmm"` the
empty-key entry exists and holds the message, but it is the first entry
of the mapping, not the last. -/
theorem c10_counterexample :
    kvlmParse [32, 97, 10, 113, 32, 122, 10, 10, 109, 109]
        = .ok [([], [[109, 109]]), ([113], [[122]])] ∧
      (([([], [[109, 109]]), ([113], [[122]])] : KVLM).getLast?.map Prod.fst
        ≠ some ([] : List Nat)) :=
  ⟨rfl, by decide⟩

/-- C10 witness: evaluated on the payload `b"\n"` (empty message). -/
theorem c10_witness :
    kvlmParse [10] = .ok [([], [[]])] ∧
      ∃ w, dctFind [(([] : List Nat), [([] : List Nat)])] [] = some [w] ∧
        kvlmSerialize [([], [[]])] = .ok (kvlmSerializeFields [([], [[]])] ++ 10 :: w) :=
  ⟨rfl, c10_message_entry [10] [([], [[]])] rfl⟩

/-! ## Numeric conversions used by the object layer

Python's `int(...)`, `hex(...)`, `int.from_bytes`, `int.to_bytes` and
`format(n, "040x")`. -/

/-- Errors of the object layer, mirroring the distinct raise sites in the
source: failed `assert`s, `int(...)` parse failures (`ValueError`), the
`"Malformed object ...: bad length"` `ValueError`, the unknown-type
`ValueError`, `GitObjectTypeError`, a missing object file,
`int.to_bytes` overflow, `struct.pack`/`struct.unpack` errors, and the
embedded KVLM errors. -/
inductive ObjErr where
  | assertionError
  | intParseError
  | malformed
  | unknownType
  | gitObjectTypeError
  | fileNotFound
  | overflowError
  | structError
  | indexValueError
  | invalidChecksum
  | invalidSignature
  | unknownVersion
  | countMismatch
  | kvlmErr (e : KvlmErr)
  | fuelOut
  deriving DecidableEq, Repr

/-- Decimal digits of `n`, most significant first (the digits of
`str(n)` / `'{}'.format(n)` as ASCII bytes). -/
def natToDecBytesGo : Nat → Nat → List Nat
  | 0, _ => []
  | fuel + 1, n =>
      if n < 10 then [48 + n] else natToDecBytesGo fuel (n / 10) ++ [48 + n % 10]

/-- ASCII decimal rendering of a natural number. -/
def natToDecBytes (n : Nat) : List Nat := natToDecBytesGo (n + 1) n

/-- Numeric value of a list of ASCII decimal digits. -/
def decValue (bs : List Nat) : Nat := bs.foldl (fun a b => a * 10 + (b - 48)) 0

def isDigitByte (b : Nat) : Bool := 48 ≤ b && b ≤ 57

/-- The bytes Python's `int(...)` strips before parsing. -/
def wsByte (b : Nat) : Bool :=
  b = 32 || b = 9 || b = 10 || b = 13 || b = 11 || b = 12

/-- Python `int(bs.decode("ascii"))` for a nonnegative decimal literal:
strips surrounding whitespace, then requires a nonempty run of decimal
digits (`None` models `ValueError`; signs and underscores never occur in
the inputs the source feeds it). -/
def pyIntBytes (bs : List Nat) : Option Nat :=
  let t := ((bs.dropWhile wsByte).reverse.dropWhile wsByte).reverse
  if t ≠ [] ∧ t.all isDigitByte then some (decValue t) else none

/-- Python `int.from_bytes(bs, "big")`. -/
def natFromBytesBE (bs : List Nat) : Nat := bs.foldl (fun a b => a * 256 + b) 0

/-- Python `n.to_bytes(w, "big")` (the caller checks the overflow). -/
def natToBytesBE : Nat → Nat → List Nat
  | 0, _ => []
  | w + 1, n => natToBytesBE w (n / 256) ++ [n % 256]

/-- Lowercase hex digit characters. -/
def hexDigitChar (d : Nat) : Char :=
  if d < 10 then Char.ofNat (48 + d) else Char.ofNat (87 + d)

def natToHexGo : Nat → Nat → List Char
  | 0, _ => []
  | fuel + 1, n =>
      if n < 16 then [hexDigitChar n] else natToHexGo fuel (n / 16) ++ [hexDigitChar (n % 16)]

/-- Python `hex(n)[2:]`: lowercase hex digits without leading zeros
(`"0"` for zero). -/
def natToHexStr (n : Nat) : String := String.mk (natToHexGo (n + 1) n)

/-- Python `format(n, "040x")`: lowercase hex, zero-padded on the left to
at least 40 characters. -/
def pyFormat040x (n : Nat) : String :=
  String.mk (List.replicate (40 - (natToHexGo (n + 1) n).length) '0' ++ natToHexGo (n + 1) n)

/-- Python `int(s)` on a string (decimal, no surrounding whitespace in
the strings the source feeds it). -/
def pyIntDecStr (s : String) : Option Nat :=
  let bs := s.toList.map Char.toNat
  if bs ≠ [] ∧ bs.all isDigitByte then some (decValue bs) else none

/-- Value of a lowercase/uppercase hex digit character, if it is one. -/
def hexVal? (c : Char) : Option Nat :=
  if '0' ≤ c ∧ c ≤ '9' then some (c.toNat - 48)
  else if 'a' ≤ c ∧ c ≤ 'f' then some (c.toNat - 87)
  else if 'A' ≤ c ∧ c ≤ 'F' then some (c.toNat - 55)
  else none

/-- Python `int(s, 16)` (no prefix/whitespace in the source's inputs;
`None` models `ValueError`). -/
def pyIntHexStr (s : String) : Option Nat :=
  if s.toList = [] then none
  else s.toList.foldl
    (fun acc c => acc.bind fun a => (hexVal? c).map fun d => a * 16 + d)
    (some 0)

/-! ## Tree codec (`src/wyag/trees.py`) -/

/-- A tree leaf: `mode` and `path` as raw bytes, `sha` as the hex string
the source stores (`Sha = NewType('Sha', str)`). -/
structure GitTreeLeaf where
  mode : List Nat
  path : List Nat
  sha : String
  deriving DecidableEq, Repr

/-- `tree_parse_one(raw, start)`: mode up to the first space (asserted 5
or 6 bytes), path up to the NUL, then 20 raw hash bytes.  The source
renders the hash with `hex(...)` and then re-parses it with `int(sha)`
— in base 10. -/
def treeParseOne (raw : List Nat) (start : Nat) : Except ObjErr (Nat × GitTreeLeaf) :=
  let x := pyFind raw 32 start
  if ¬ (x - start = 5 ∨ x - start = 6) then .error .assertionError
  else
    let mode := pySlice raw start x
    let y := pyFind raw 0 x.toNat
    let path := pySlice raw (x.toNat + 1) y
    let sha := natToHexStr (natFromBytesBE (pySlice raw (y + 1).toNat (y + 21)))
    match pyIntDecStr sha with
    | none => .error .intParseError
    | some n => .ok ((y + 21).toNat, ⟨mode, path, pyFormat040x n⟩)

/-- The `while pos < len(raw)` loop of `tree_parse`. -/
def treeParseGo (raw : List Nat) : Nat → Nat → Except ObjErr (List GitTreeLeaf)
  | 0, _ => .error .fuelOut
  | fuel + 1, pos =>
      if pos < raw.length then
        (treeParseOne raw pos).bind fun pr =>
          (treeParseGo raw fuel pr.1).map fun rest => pr.2 :: rest
      else .ok []

/-- `tree_parse(raw)`. -/
def treeParse (raw : List Nat) : Except ObjErr (List GitTreeLeaf) :=
  treeParseGo raw (raw.length + 1) 0

/-- One record emitted by `tree_serialize`:
`mode SP path NUL int(sha,16).to_bytes(20,"big")`. -/
def leafBytes (l : GitTreeLeaf) : Except ObjErr (List Nat) :=
  match pyIntHexStr l.sha with
  | none => .error .intParseError
  | some n =>
      if n < 256 ^ 20 then .ok (l.mode ++ 32 :: (l.path ++ 0 :: natToBytesBE 20 n))
      else .error .overflowError

/-- `tree_serialize(obj)`: records concatenated in stored order. -/
def treeSerialize (items : List GitTreeLeaf) : Except ObjErr (List Nat) :=
  (items.mapM leafBytes).map List.flatten

/-- `tree_read(repo, sha)` applied to the inflated object bytes: parses
the `<kind> SP <decimal-size> NUL` header, validates the declared size,
then rejects the object with `GitObjectTypeError` unless its kind is
`blob` (the source's typo — the intended check is against `tree`), and
parses the payload as a tree. -/
def treeReadRaw (raw : List Nat) : Except ObjErr (List GitTreeLeaf) :=
  let x := pyFind raw 32 0
  let fmt := pySlice raw 0 x
  let y := pyFind raw 0 x.toNat
  match pyIntBytes (pySlice raw x.toNat y) with
  | none => .error .intParseError
  | some size =>
      if (size : Int) ≠ (raw.length : Int) - y - 1 then .error .malformed
      else if fmt ≠ [98, 108, 111, 98] then .error .gitObjectTypeError
      else treeParse (pySliceFrom raw (y + 1).toNat)

/-- `blob_read(repo, sha)` applied to the inflated object bytes: same
header handling, accepts kind `blob`, returns the payload. -/
def blobReadRaw (raw : List Nat) : Except ObjErr (List Nat) :=
  let x := pyFind raw 32 0
  let fmt := pySlice raw 0 x
  let y := pyFind raw 0 x.toNat
  match pyIntBytes (pySlice raw x.toNat y) with
  | none => .error .intParseError
  | some size =>
      if (size : Int) ≠ (raw.length : Int) - y - 1 then .error .malformed
      else if fmt ≠ [98, 108, 111, 98] then .error .gitObjectTypeError
      else .ok (pySliceFrom raw (y + 1).toNat)

/-- The in-memory object a read returns, a tagged sum over the four
kinds (blob payload bytes, commit/tag KVLM, parsed tree). -/
inductive GObj where
  | blob (data : List Nat)
  | commit (kvlm : KVLM)
  | tree (items : List GitTreeLeaf)
  | tag (kvlm : KVLM)
  deriving DecidableEq, Repr

/-- `generic_object_read` (`src/wyag/frontend.py`) applied to the
inflated object bytes: header parse, size validation (`Malformed` on
mismatch), then construction of the typed object, which deserializes the
payload (KVLM for commit/tag, tree records for tree, raw for blob). -/
def genericObjectRead (raw : List Nat) : Except ObjErr GObj :=
  let x := pyFind raw 32 0
  let fmt := pySlice raw 0 x
  let y := pyFind raw 0 x.toNat
  match pyIntBytes (pySlice raw x.toNat y) with
  | none => .error .intParseError
  | some size =>
      if (size : Int) ≠ (raw.length : Int) - y - 1 then .error .malformed
      else
        let payload := pySliceFrom raw (y + 1).toNat
        if fmt = [99, 111, 109, 109, 105, 116] then
          match kvlmParse payload with
          | .error e => .error (.kvlmErr e)
          | .ok m => .ok (.commit m)
        else if fmt = [116, 114, 101, 101] then
          (treeParse payload).map .tree
        else if fmt = [116, 97, 103] then
          match kvlmParse payload with
          | .error e => .error (.kvlmErr e)
          | .ok m => .ok (.tag m)
        else if fmt = [98, 108, 111, 98] then
          .ok (.blob payload)
        else .error .unknownType

/-- C2: `tree_read` checks `if fmt != b'blob'` instead of `!= b'tree'`:
on a stored object of kind `tree` (here the empty tree object
`b"tree 0\x00"`) it raises `GitObjectTypeError`, and an object of kind
`blob` (here `b"blob 0\x00"`) passes the type check and has its payload
parsed as a tree. -/
theorem c2_tree_read_rejects_tree :
    treeReadRaw [116, 114, 101, 101, 32, 48, 0] = .error .gitObjectTypeError ∧
      treeReadRaw [98, 108, 111, 98, 32, 48, 0] = .ok [] := ⟨rfl, rfl⟩

/-- C4: the tree round-trip fails: `tree_parse_one` re-parses the hex
rendering of the hash with `int(sha)` in base 10, so a serialized leaf
whose 40-hex-digit hash contains a letter makes parsing raise
`ValueError`, and a digit-only hash is re-interpreted in base 10 and
rendered as a different hash. -/
theorem c4_tree_roundtrip_bug :
    (treeSerialize [⟨[49, 48, 48, 54, 52, 52], [97],
        "aaaaaaaaaaaaaaaaaaaaaaaaaaaaaaaaaaaaaaaa"⟩]).bind treeParse
      = .error .intParseError ∧
    (treeSerialize [⟨[49, 48, 48, 54, 52, 52], [97],
        "0000000000000000000000000000000000000010"⟩]).bind treeParse
      = .ok [⟨[49, 48, 48, 54, 52, 52], [97],
        "000000000000000000000000000000000000000a"⟩] ∧
    ("000000000000000000000000000000000000000a" : String)
      ≠ "0000000000000000000000000000000000000010" :=
  ⟨rfl, rfl, by decide⟩

/-! ## Checkout (`src/wyag/trees.py`, `tree_checkout`)

The object store is abstracted as a map from hex sha to the inflated
object bytes; the filesystem effects are recorded as a list of
operations. -/

/-- `tree_read(repo, sha)`: look the object up in the store, then parse. -/
def treeReadStore (store : String → Option (List Nat)) (sha : String) :
    Except ObjErr (List GitTreeLeaf) :=
  match store sha with
  | none => .error .fileNotFound
  | some raw => treeReadRaw raw

/-- `blob_read(repo, sha)`. -/
def blobReadStore (store : String → Option (List Nat)) (sha : String) :
    Except ObjErr (List Nat) :=
  match store sha with
  | none => .error .fileNotFound
  | some raw => blobReadRaw raw

/-- A recorded filesystem effect of checkout. -/
inductive FsOp where
  | mkdir (path : List (List Nat))
  | writeFile (path : List (List Nat)) (data : List Nat)
  deriving DecidableEq, Repr

/-- The per-leaf loop of `tree_checkout`: try `tree_read`; on success
`mkdir` and recurse (through `recur`); on `GitObjectTypeError` (the only
exception caught) read the leaf as a blob and write its bytes raw; any
other exception propagates. -/
def treeCheckoutGo (store : String → Option (List Nat))
    (recur : List (List Nat) → List GitTreeLeaf → Except ObjErr (List FsOp))
    (dest : List (List Nat)) : List GitTreeLeaf → Except ObjErr (List FsOp)
  | [] => .ok []
  | item :: rest =>
      let destI := dest ++ [item.path]
      match treeReadStore store item.sha with
      | .ok sub =>
          (recur destI sub).bind fun subOps =>
            (treeCheckoutGo store recur dest rest).map fun restOps =>
              (FsOp.mkdir destI :: subOps) ++ restOps
      | .error .gitObjectTypeError =>
          (blobReadStore store item.sha).bind fun blobData =>
            (treeCheckoutGo store recur dest rest).map fun restOps =>
              FsOp.writeFile destI blobData :: restOps
      | .error e => .error e

/-- `tree_checkout(repo, tree, path)` with explicit recursion fuel for
the subtree recursion. -/
def treeCheckout (store : String → Option (List Nat)) :
    Nat → List (List Nat) → List GitTreeLeaf → Except ObjErr (List FsOp)
  | 0, _, _ => .error .fuelOut
  | fuel + 1, dest, items => treeCheckoutGo store (treeCheckout store fuel) dest items

/-- C6: checking out a tree whose single leaf is the blob `hello.txt`
containing `b"hello\n"` does not write the file: `tree_read` accepts the
blob (its type check is inverted), `tree_parse` then fails its mode
assertion on the blob payload, and the `AssertionError` propagates out of
`tree_checkout`; a genuine subtree leaf fails with `GitObjectTypeError`
because `tree_read` rejects trees and the fallback `blob_read` rejects
them too. -/
theorem c6_tree_checkout_bug :
    treeCheckout
        (fun s => if s = "b000000000000000000000000000000000000000a" then
            some [98, 108, 111, 98, 32, 54, 0, 104, 101, 108, 108, 111, 10]
          else if s = "d000000000000000000000000000000000000000a" then
            some [116, 114, 101, 101, 32, 48, 0]
          else none)
        2 []
        [⟨[49, 48, 48, 54, 52, 52], [104, 101, 108, 108, 111, 46, 116, 120, 116],
          "b000000000000000000000000000000000000000a"⟩]
      = .error .assertionError ∧
    treeCheckout
        (fun s => if s = "b000000000000000000000000000000000000000a" then
            some [98, 108, 111, 98, 32, 54, 0, 104, 101, 108, 108, 111, 10]
          else if s = "d000000000000000000000000000000000000000a" then
            some [116, 114, 101, 101, 32, 48, 0]
          else none)
        2 []
        [⟨[52, 48, 48, 48, 48], [115, 117, 98],
          "d000000000000000000000000000000000000000a"⟩]
      = .error .gitObjectTypeError ∧
    blobReadStore
        (fun s => if s = "b000000000000000000000000000000000000000a" then
            some [98, 108, 111, 98, 32, 54, 0, 104, 101, 108, 108, 111, 10]
          else if s = "d000000000000000000000000000000000000000a" then
            some [116, 114, 101, 101, 32, 48, 0]
          else none)
        "b000000000000000000000000000000000000000a"
      = .ok [104, 101, 108, 108, 111, 10] :=
  ⟨rfl, rfl, rfl⟩

/-! ### Facts about the numeric conversions -/

theorem natToDecBytesGo_digits (fuel : Nat) :
    ∀ n, n < fuel → ∀ b ∈ natToDecBytesGo fuel n, 48 ≤ b ∧ b ≤ 57 := by
  induction fuel with
  | zero => intro n h; omega
  | succ fuel ih =>
      intro n h b hb
      by_cases h10 : n < 10
      · simp [natToDecBytesGo, h10] at hb
        omega
      · simp only [natToDecBytesGo, h10, if_false] at hb
        rcases List.mem_append.mp hb with h1 | h1
        · have hdiv : n / 10 < fuel := by
            have := Nat.div_lt_self (by omega : 0 < n) (by omega : 1 < 10)
            omega
          exact ih (n / 10) hdiv b h1
        · have : b = 48 + n % 10 := by simpa using h1
          have := Nat.mod_lt n (by omega : 0 < 10)
          omega

theorem natToDecBytesGo_ne_nil (fuel n : Nat) (h : n < fuel) :
    natToDecBytesGo fuel n ≠ [] := by
  cases fuel with
  | zero => omega
  | succ fuel =>
      by_cases h10 : n < 10 <;> simp [natToDecBytesGo, h10]

theorem decValue_append_digit (xs : List Nat) (d : Nat) :
    decValue (xs ++ [d]) = decValue xs * 10 + (d - 48) := by
  simp [decValue, List.foldl_append]

theorem decValue_natToDecBytesGo (fuel : Nat) :
    ∀ n, n < fuel → decValue (natToDecBytesGo fuel n) = n := by
  induction fuel with
  | zero => intro n h; omega
  | succ fuel ih =>
      intro n h
      by_cases h10 : n < 10
      · simp [natToDecBytesGo, h10, decValue]
      · have hdiv : n / 10 < fuel := by
          have := Nat.div_lt_self (by omega : 0 < n) (by omega : 1 < 10)
          omega
        simp only [natToDecBytesGo, h10, if_false]
        rw [decValue_append_digit, ih (n / 10) hdiv]
        have h1 := Nat.div_add_mod n 10
        omega

theorem natToDecBytes_digits (n : Nat) :
    ∀ b ∈ natToDecBytes n, 48 ≤ b ∧ b ≤ 57 :=
  natToDecBytesGo_digits (n + 1) n (by omega)

theorem natToDecBytes_ne_nil (n : Nat) : natToDecBytes n ≠ [] :=
  natToDecBytesGo_ne_nil (n + 1) n (by omega)

theorem decValue_natToDecBytes (n : Nat) : decValue (natToDecBytes n) = n :=
  decValue_natToDecBytesGo (n + 1) n (by omega)

theorem wsByte_digit_false (b : Nat) (h : 48 ≤ b ∧ b ≤ 57) : wsByte b = false := by
  simp [wsByte]
  omega

theorem dropWhile_eq_self_of_all (p : Nat → Bool) (l : List Nat)
    (h : ∀ b ∈ l, p b = false) : l.dropWhile p = l := by
  cases l with
  | nil => rfl
  | cons a r => simp [List.dropWhile_cons, h a (by simp)]

/-- `int(b' ' + digits)` parses back to the rendered number (the leading
space is stripped). -/
theorem pyIntBytes_sp_dec (n : Nat) :
    pyIntBytes (32 :: natToDecBytes n) = some n := by
  have hd := natToDecBytes_digits n
  have hne := natToDecBytes_ne_nil n
  have hws : ∀ b ∈ natToDecBytes n, wsByte b = false :=
    fun b hb => wsByte_digit_false b (hd b hb)
  have h1 : (32 :: natToDecBytes n).dropWhile wsByte = natToDecBytes n := by
    rw [List.dropWhile_cons]
    simp only [show wsByte 32 = true from rfl, if_true]
    exact dropWhile_eq_self_of_all wsByte _ hws
  have h2 : (natToDecBytes n).reverse.dropWhile wsByte = (natToDecBytes n).reverse := by
    refine dropWhile_eq_self_of_all wsByte _ ?_
    intro b hb
    exact hws b (by simpa using hb)
  have hall : (natToDecBytes n).all isDigitByte = true := by
    rw [List.all_eq_true]
    intro b hb
    have := hd b hb
    simp [isDigitByte]
    omega
  simp only [pyIntBytes, h1, h2, List.reverse_reverse]
  rw [if_pos ⟨hne, hall⟩, decValue_natToDecBytes]

/-- A stored object's logical serialization
`<kind> SP <decimal-size> NUL <payload>` (the bytes `object_write`
builds and `zlib` inflation recovers). -/
def objBytes (kind : List Nat) (size : Nat) (payload : List Nat) : List Nat :=
  kind ++ 32 :: (natToDecBytes size ++ 0 :: payload)

/-- `generic_object_read` on a header-formed input reduces to the size
check followed by the kind dispatch. -/
theorem genericObjectRead_objBytes (kind : List Nat) (size : Nat) (payload : List Nat)
    (h32 : 32 ∉ kind) :
    genericObjectRead (objBytes kind size payload) =
      (if size ≠ payload.length then .error .malformed
       else if kind = [99, 111, 109, 109, 105, 116] then
         match kvlmParse payload with
         | .error e => .error (.kvlmErr e)
         | .ok m => .ok (.commit m)
       else if kind = [116, 114, 101, 101] then
         (treeParse payload).map .tree
       else if kind = [116, 97, 103] then
         match kvlmParse payload with
         | .error e => .error (.kvlmErr e)
         | .ok m => .ok (.tag m)
       else if kind = [98, 108, 111, 98] then
         .ok (.blob payload)
       else .error .unknownType) := by
  have hdrop0 : (objBytes kind size payload).drop 0
      = kind ++ 32 :: (natToDecBytes size ++ 0 :: payload) := by
    simp [objBytes]
  have hx : pyFind (objBytes kind size payload) 32 0
      = ((0 + kind.length : Nat) : Int) :=
    pyFind_decomp _ 32 0 kind _ hdrop0 h32
  have hfmt : pySlice (objBytes kind size payload) 0 ((0 + kind.length : Nat) : Int)
      = kind :=
    pySlice_decomp _ 0 kind _ hdrop0 (by omega)
  have hxt : (((0 + kind.length : Nat) : Int)).toNat = kind.length := by omega
  have hdropK : (objBytes kind size payload).drop kind.length
      = (32 :: natToDecBytes size) ++ 0 :: payload := by
    simp [objBytes]
  have h0dec : (0 : Nat) ∉ 32 :: natToDecBytes size := by
    simp
    intro hb
    have := natToDecBytes_digits size 0 hb
    omega
  have hlenraw : (objBytes kind size payload).length
      = kind.length + 1 + (natToDecBytes size).length + 1 + payload.length := by
    simp [objBytes]
    omega
  have hy : pyFind (objBytes kind size payload) 0 kind.length
      = ((kind.length + (32 :: natToDecBytes size).length : Nat) : Int) :=
    pyFind_decomp _ 0 kind.length (32 :: natToDecBytes size) payload hdropK h0dec
  have hslice : pySlice (objBytes kind size payload) kind.length
      ((kind.length + (32 :: natToDecBytes size).length : Nat) : Int)
      = 32 :: natToDecBytes size :=
    pySlice_decomp _ kind.length _ _ hdropK (by rw [hlenraw]; omega)
  have hint : pyIntBytes (32 :: natToDecBytes size) = some size :=
    pyIntBytes_sp_dec size
  have hpay : pySliceFrom (objBytes kind size payload)
      ((((kind.length + (32 :: natToDecBytes size).length : Nat) : Int)) + 1).toNat
      = payload := by
    have ht : ((((kind.length + (32 :: natToDecBytes size).length : Nat) : Int)) + 1).toNat
        = kind.length + ((32 :: natToDecBytes size).length + 1) := by
      simp only [List.length_cons]
      omega
    rw [ht, pySliceFrom, ← List.drop_drop, hdropK, List.drop_append 1]
    simp
  simp only [genericObjectRead, hx, hxt, hfmt, hy, hslice, hint, hpay]
  by_cases hsz : size = payload.length
  · rw [if_neg (by
      simp only [List.length_cons]
      rw [hlenraw]
      push_neg
      omega), if_neg (not_not_intro hsz)]
  · rw [if_pos (by
      simp only [List.length_cons]
      rw [hlenraw]
      omega), if_pos hsz]

/-- C7 (amended): on a stored object file of any of the four kinds,
`generic_object_read` fails with the `Malformed` error whenever the
declared decimal size differs from the payload's byte length, never
returns an object when they disagree, and for a blob returns the payload
exactly when they agree (for commit/tag/tree the payload must
additionally deserialize). -/
theorem c7_generic_object_read_size_check (kind : List Nat)
    (hkind : kind = [98, 108, 111, 98] ∨ kind = [99, 111, 109, 109, 105, 116] ∨
      kind = [116, 114, 101, 101] ∨ kind = [116, 97, 103])
    (size : Nat) (payload : List Nat) :
    (size ≠ payload.length →
      genericObjectRead (objBytes kind size payload) = .error .malformed) ∧
    (∀ obj, genericObjectRead (objBytes kind size payload) = .ok obj →
      size = payload.length) ∧
    (genericObjectRead (objBytes [98, 108, 111, 98] size payload)
      = .ok (.blob payload) ↔ size = payload.length) := by
  have hred := genericObjectRead_objBytes kind size payload
    (by rcases hkind with rfl | rfl | rfl | rfl <;> decide)
  have hredb := genericObjectRead_objBytes [98, 108, 111, 98] size payload
    (by decide)
  refine ⟨?_, ?_, ?_⟩
  · intro hne
    rw [hred, if_pos hne]
  · intro obj hok
    by_contra hne
    rw [hred, if_pos hne] at hok
    simp at hok
  · rw [hredb]
    constructor
    · intro hok
      by_contra hne
      rw [if_pos hne] at hok
      simp at hok
    · intro hsz
      rw [if_neg (not_not_intro hsz)]
      simp

/-- C7 counterexample: a stored commit object whose declared size
matches its payload length but whose payload is not a valid KVLM — the
read raises the KVLM `AssertionError` instead of returning the payload,
so "returns the payload exactly when the sizes agree" fails as stated. -/
theorem c7_counterexample :
    genericObjectRead [99, 111, 109, 109, 105, 116, 32, 49, 0, 120]
        = .error (.kvlmErr .assertFail) ∧
      ([120] : List Nat).length = 1 :=
  ⟨rfl, rfl⟩

/-- C7 witness: a well-formed blob round-trips and a commit with a wrong
declared size is rejected as `Malformed`. -/
theorem c7_witness :
    genericObjectRead (objBytes [98, 108, 111, 98] 2 [104, 105])
        = .ok (.blob [104, 105]) ∧
      genericObjectRead (objBytes [99, 111, 109, 109, 105, 116] 5 [120])
        = .error .malformed :=
  ⟨(c7_generic_object_read_size_check [98, 108, 111, 98] (Or.inl rfl)
      2 [104, 105]).2.2.mpr rfl,
    (c7_generic_object_read_size_check [99, 111, 109, 109, 105, 116]
      (Or.inr (Or.inl rfl)) 5 [120]).1 (by decide)⟩

/-! ## Reference resolution (`src/wyag/refs.py`, `ref_resolve`)

The ref store is a map from ref path to file content, both as byte
strings (`b"ref: "` is `[114, 101, 102, 58, 32]`).  `ref_resolve` reads
the file, strips the last character (`data = fp.read()[:-1]`), and
recurses while the content starts with `ref: `.  The source recursion is
unbounded; the fuel models that. -/

def refResolveF (files : List Nat → Option (List Nat)) :
    Nat → List Nat → Except ObjErr (List Nat)
  | 0, _ => .error .fuelOut
  | fuel + 1, ref =>
      match files ref with
      | none => .error .fileNotFound
      | some content =>
          let data := content.dropLast
          if [114, 101, 102, 58, 32].isPrefixOf data then
            refResolveF files fuel (data.drop 5)
          else .ok data

/-- The big-step meaning of `ref_resolve`: `RefResolves files ref h`
holds when the chain of `ref: ` indirections starting at `ref`
terminates with the direct content `h`. -/
inductive RefResolves (files : List Nat → Option (List Nat)) :
    List Nat → List Nat → Prop where
  | direct : ∀ ref content, files ref = some content →
      ¬ ([114, 101, 102, 58, 32].isPrefixOf content.dropLast = true) →
      RefResolves files ref content.dropLast
  | symbolic : ∀ ref content h, files ref = some content →
      [114, 101, 102, 58, 32].isPrefixOf content.dropLast = true →
      RefResolves files (content.dropLast.drop 5) h →
      RefResolves files ref h

/-- C9 (amended): `ref_resolve` terminates with hash `h` precisely on
the ref states whose indirection chain reaches a direct ref with content
`h`: every finite chain resolves (with enough fuel standing in for the
source's recursion depth), and every resolution arises from such a
chain.  Cyclic configurations are exactly the ones with no such chain,
and on them the source recursion never terminates. -/
theorem c9_ref_resolve_terminates_iff (files : List Nat → Option (List Nat))
    (ref h : List Nat) :
    (RefResolves files ref h → ∃ fuel, refResolveF files fuel ref = .ok h) ∧
    (∀ fuel, refResolveF files fuel ref = .ok h → RefResolves files ref h) := by
  constructor
  · intro hres
    induction hres with
    | direct ref content hf hns =>
        exact ⟨1, by simp [refResolveF, hf, hns]⟩
    | symbolic ref content h2 hf hs hrec ih =>
        obtain ⟨fuel, hfu⟩ := ih
        exact ⟨fuel + 1, by simp [refResolveF, hf, hs, hfu]⟩
  · intro fuel
    induction fuel generalizing ref with
    | zero =>
        intro hh
        simp [refResolveF] at hh
    | succ fuel ih =>
        intro hh
        rw [refResolveF] at hh
        cases hfr : files ref with
        | none => rw [hfr] at hh; simp at hh
        | some content =>
            rw [hfr] at hh
            simp only at hh
            by_cases hs : [114, 101, 102, 58, 32].isPrefixOf content.dropLast = true
            · rw [if_pos hs] at hh
              exact RefResolves.symbolic ref content h hfr hs (ih _ hh)
            · rw [if_neg hs] at hh
              simp only [Except.ok.injEq] at hh
              rw [← hh]
              exact RefResolves.direct ref content hfr hs

/-- C9 counterexample: with `HEAD` containing `b"ref: HEAD\n"` the
symbolic refs form a one-step cycle and resolution reaches no hash at
all — `ref_resolve` does not terminate on this configuration. -/
theorem c9_counterexample :
    ¬ ∃ h, RefResolves
      (fun r => if r = [72, 69, 65, 68] then
        some [114, 101, 102, 58, 32, 72, 69, 65, 68, 10] else none)
      [72, 69, 65, 68] h := by
  rintro ⟨h, hres⟩
  suffices haux : ∀ ref h2, RefResolves
      (fun r => if r = [72, 69, 65, 68] then
        some [114, 101, 102, 58, 32, 72, 69, 65, 68, 10] else none) ref h2 →
      ref = [72, 69, 65, 68] → False from haux _ _ hres rfl
  intro ref h2 hres2
  induction hres2 with
  | direct ref content hf hns =>
      intro hr
      subst hr
      rw [if_pos rfl] at hf
      injection hf with hf2
      subst hf2
      exact hns (by decide)
  | symbolic ref content h3 hf hs hrec ih =>
      intro hr
      subst hr
      rw [if_pos rfl] at hf
      injection hf with hf2
      subst hf2
      exact ih (by decide)

/-- C9 witness: `HEAD -> refs/heads/master -> b"ab\n"` resolves. -/
theorem c9_witness :
    (RefResolves
        (fun r => if r = [72, 69, 65, 68] then
            some ([114, 101, 102, 58, 32] ++ [109] ++ [10])
          else if r = [109] then some [97, 98, 10] else none)
        [72, 69, 65, 68] [97, 98]) ∧
      ∃ fuel, refResolveF
        (fun r => if r = [72, 69, 65, 68] then
            some ([114, 101, 102, 58, 32] ++ [109] ++ [10])
          else if r = [109] then some [97, 98, 10] else none)
        fuel [72, 69, 65, 68] = .ok [97, 98] := by
  have hres := (c9_ref_resolve_terminates_iff
    (fun r => if r = [72, 69, 65, 68] then
        some ([114, 101, 102, 58, 32] ++ [109] ++ [10])
      else if r = [109] then some [97, 98, 10] else none)
    [72, 69, 65, 68] [97, 98]).2 2 (by decide)
  exact ⟨hres, (c9_ref_resolve_terminates_iff _ [72, 69, 65, 68] [97, 98]).1 hres⟩

/-! ## Name resolution (`src/wyag/finder.py`, `object_resolve`)

The repository is abstracted as: `objectsDir p2` returns, for an
existing directory `objects/<p2>/`, the pair of `str()` of that
directory path and the list of its entry names (`iterdir()` yields the
child paths joined to the parent, so `str(f)` is the directory string,
a `/`, and the file name); `refFile path` returns the `ref_resolve`
result for an existing ref file. -/

structure ResolveFs where
  objectsDir : String → Option (String × List String)
  refFile : String → Option String

def isHexDigit (c : Char) : Bool :=
  ('0' ≤ c && c ≤ '9') || ('A' ≤ c && c ≤ 'F') || ('a' ≤ c && c ≤ 'f')

def isPySpace (c : Char) : Bool :=
  c = ' ' || c = '\t' || c = '\n' || c = '\r' ||
    c = Char.ofNat 11 || c = Char.ofNat 12

/-- Python `s.strip()`. -/
def pyStripStr (s : String) : String :=
  String.mk (((s.toList.dropWhile isPySpace).reverse.dropWhile isPySpace).reverse)

/-- Python `s.lower()` (ASCII). -/
def pyLower (s : String) : String := String.mk (s.toList.map Char.toLower)

/-- Python `s[:n]` (character-wise). -/
def pyTakeStr (s : String) (n : Nat) : String := String.mk (s.toList.take n)

/-- Python `s[n:]` (character-wise). -/
def pyDropStr (s : String) (n : Nat) : String := String.mk (s.toList.drop n)

/-- Python `s.startswith(pre)` (character-wise). -/
def pyStartsWith (s pre : String) : Bool := pre.toList.isPrefixOf s.toList

/-- `object_resolve(repo, name)`: empty name, the `HEAD` literal, a full
40-hex-char hash, a 4–40-hex-char short hash matched against
`str(f)` for each `f` in `objects/<first-two>/` (appending
`prefix + str(f)`), then the four ref paths. -/
def objectResolve (fs : ResolveFs) (name : String) : Except ObjErr (List String) :=
  if pyStripStr name = "" then .ok []
  else if name = "HEAD" then
    match fs.refFile "HEAD" with
    | none => .error .fileNotFound
    | some h => .ok [h]
  else if name.length = 40 ∧ name.toList.all isHexDigit then
    .ok [pyLower name]
  else
    let candidates :=
      if 4 ≤ name.length ∧ name.length ≤ 40 ∧ name.toList.all isHexDigit then
        match fs.objectsDir (pyTakeStr (pyLower name) 2) with
        | none => []
        | some dirFiles =>
            ((dirFiles.2.filter fun f =>
                pyStartsWith (dirFiles.1 ++ "/" ++ f) (pyDropStr (pyLower name) 2)).map
              fun f => pyTakeStr (pyLower name) 2 ++ (dirFiles.1 ++ "/" ++ f))
      else []
    let refCandidates :=
      ["refs/heads/" ++ name, "refs/tags/" ++ name, "refs/" ++ name,
        name].filterMap fs.refFile
    .ok (candidates ++ refCandidates)

/-- C5: resolving the 5-character prefix `abcd0` of the stored object
`abcd0000...` yields no candidate at all: the source matches the
remainder against `str(f)` — the full path string — rather than the file
name, and would also append `prefix + str(f)` rather than
`prefix + filename`.  The file name itself does start with the
remainder, and the prefixed file name would be the full 40-char hash. -/
theorem c5_object_resolve_bug :
    objectResolve
        ⟨fun p => if p = "ab" then
            some (".git/objects/ab",
              ["cd000000000000000000000000000000000000"])
          else none,
        fun _ => none⟩ "abcd0"
      = .ok [] ∧
    pyStartsWith "cd000000000000000000000000000000000000" "cd0" = true ∧
    pyStartsWith ".git/objects/ab/cd000000000000000000000000000000000000" "cd0"
      = false ∧
    ("ab" ++ "cd000000000000000000000000000000000000").length = 40 :=
  ⟨by decide, by decide, by decide, by decide⟩

/-! ## Index codec (`src/wyag/index.py`)

`GitIndexEntry` keeps the stored fields; `struct.pack('!LLLLLLLLLL20sH')`
is modelled by big-endian byte rendering with the out-of-range check
(`struct.error`); paths are byte strings (`entry.name.encode()` /
`path.decode()` are mutually inverse on the valid strings the source
handles). -/

structure GitIndexEntry where
  ctime_s : Nat
  ctime_n : Nat
  mtime_s : Nat
  mtime_n : Nat
  dev : Nat
  ino : Nat
  mode : Nat
  uid : Nat
  gid : Nat
  size : Nat
  sha : List Nat
  flags : Nat
  name : List Nat
  deriving DecidableEq, Repr

/-- `struct` `'20s'`: truncate to 20 bytes or NUL-pad. -/
def pack20s (s : List Nat) : List Nat := s.take 20 ++ List.replicate (20 - s.length) 0

/-- The 62 fixed header bytes of one entry, in `'!LLLLLLLLLL20sH'`
order. -/
def entryHeadBytes (e : GitIndexEntry) : List Nat :=
  natToBytesBE 4 e.ctime_s ++ (natToBytesBE 4 e.ctime_n ++ (natToBytesBE 4 e.mtime_s ++
    (natToBytesBE 4 e.mtime_n ++ (natToBytesBE 4 e.dev ++ (natToBytesBE 4 e.ino ++
      (natToBytesBE 4 e.mode ++ (natToBytesBE 4 e.uid ++ (natToBytesBE 4 e.gid ++
        (natToBytesBE 4 e.size ++ (pack20s e.sha ++ natToBytesBE 2 e.flags))))))))))

/-- `struct.pack(ENTRY_FORMAT, ...)`: all ten `L` fields must fit in 32
bits and `flags` in 16, else `struct.error`. -/
def packEntryHead (e : GitIndexEntry) : Except ObjErr (List Nat) :=
  if e.ctime_s < 2 ^ 32 ∧ e.ctime_n < 2 ^ 32 ∧ e.mtime_s < 2 ^ 32 ∧ e.mtime_n < 2 ^ 32 ∧
      e.dev < 2 ^ 32 ∧ e.ino < 2 ^ 32 ∧ e.mode < 2 ^ 32 ∧ e.uid < 2 ^ 32 ∧
      e.gid < 2 ^ 32 ∧ e.size < 2 ^ 32 ∧ e.flags < 2 ^ 16 then
    .ok (entryHeadBytes e)
  else .error .structError

/-- `pad_to_multiple(n, multiple)` from the source. -/
def padToMultiple (n m : Nat) : Nat := ((n + m) / m) * m

/-- One packed entry of `write_index`: header, path, then NUL padding to
`((62 + len(path) + 8) // 8) * 8` total bytes. -/
def packedEntry (e : GitIndexEntry) : Except ObjErr (List Nat) :=
  (packEntryHead e).map fun head =>
    head ++ (e.name ++ List.replicate (padToMultiple (62 + e.name.length) 8 - 62 - e.name.length) 0)

/-- The same packed entry as a total function (used to state what the
packing produces). -/
def packedBytes (e : GitIndexEntry) : List Nat :=
  entryHeadBytes e ++ (e.name ++ List.replicate (padToMultiple (62 + e.name.length) 8 - 62 - e.name.length) 0)

/-- `write_index(entries)`: `DIRC` / version 2 / entry count header, the
packed entries in the given order (the source does not sort here;
`add_all` sorts before calling), and the SHA-1 of everything before it.
The hash function is a parameter (`hashlib.sha1(...).digest()` returns
20 bytes). -/
def writeIndex (sha1 : List Nat → List Nat) (entries : List GitIndexEntry) :
    Except ObjErr (List Nat) :=
  (entries.mapM packedEntry).bind fun packs =>
    if entries.length < 2 ^ 32 then
      .ok (([68, 73, 82, 67] ++ (natToBytesBE 4 2 ++ natToBytesBE 4 entries.length))
            ++ packs.flatten
          ++ sha1 (([68, 73, 82, 67] ++ (natToBytesBE 4 2 ++ natToBytesBE 4 entries.length))
            ++ packs.flatten))
    else .error .structError

/-- `l[off : off + n]`. -/
def sliceN (l : List Nat) (off n : Nat) : List Nat := (l.drop off).take n

/-- `bytes.index(b'\x00', start)`: `none` models `ValueError`. -/
def pyByteIndex (bs : List Nat) (c : Nat) (start : Nat) : Option Nat :=
  (firstIdx? c (bs.drop start)).map (start + ·)

/-- The `GitIndexEntry(*(fields + (path,)))` construction from one
62-byte header slice (`struct.unpack` needs exactly 62 bytes; the
constructor's `sha_to_hex` asserts a 20-byte hash). -/
def mkEntry (h path : List Nat) : Except ObjErr GitIndexEntry :=
  if h.length = 62 then
    if (sliceN h 40 20).length = 20 then
      .ok ⟨natFromBytesBE (sliceN h 0 4), natFromBytesBE (sliceN h 4 4),
           natFromBytesBE (sliceN h 8 4), natFromBytesBE (sliceN h 12 4),
           natFromBytesBE (sliceN h 16 4), natFromBytesBE (sliceN h 20 4),
           natFromBytesBE (sliceN h 24 4), natFromBytesBE (sliceN h 28 4),
           natFromBytesBE (sliceN h 32 4), natFromBytesBE (sliceN h 36 4),
           sliceN h 40 20, natFromBytesBE (sliceN h 60 2), path⟩
    else .error .assertionError
  else .error .structError

/-- The `while i + 62 < len(entry_data)` loop of `read_index`. -/
def readLoop (ed : List Nat) : Nat → Nat → Except ObjErr (List GitIndexEntry)
  | 0, _ => .error .fuelOut
  | fuel + 1, i =>
      if i + 62 < ed.length then
        match pyByteIndex ed 0 (i + 62) with
        | none => .error .indexValueError
        | some pathEnd =>
            (mkEntry (sliceN ed i 62) (sliceN ed (i + 62) (pathEnd - (i + 62)))).bind
              fun e =>
                (readLoop ed fuel (i + padToMultiple (62 + (pathEnd - (i + 62))) 8)).map
                  fun rest => e :: rest
      else .ok []

/-- `read_index()` applied to the index file bytes: checksum, signature,
version, entry loop, and the final entry-count assertion. -/
def readIndex (sha1 : List Nat → List Nat) (data : List Nat) :
    Except ObjErr (List GitIndexEntry) :=
  if sha1 (data.take (data.length - 20)) ≠ data.drop (data.length - 20) then
    .error .invalidChecksum
  else if (data.take 12).length ≠ 12 then .error .structError
  else if sliceN data 0 4 ≠ [68, 73, 82, 67] then .error .invalidSignature
  else if natFromBytesBE (sliceN data 4 4) ≠ 2 then .error .unknownVersion
  else
    (readLoop ((data.take (data.length - 20)).drop 12)
        (((data.take (data.length - 20)).drop 12).length + 1) 0).bind fun entries =>
      if entries.length = natFromBytesBE (sliceN data 8 4) then .ok entries
      else .error .countMismatch

/-! ### Facts about the index codec -/

theorem natToBytesBE_length (w v : Nat) : (natToBytesBE w v).length = w := by
  induction w generalizing v with
  | zero => rfl
  | succ w ih => simp [natToBytesBE, ih]

theorem natFromBytesBE_append_one (xs : List Nat) (b : Nat) :
    natFromBytesBE (xs ++ [b]) = natFromBytesBE xs * 256 + b := by
  simp [natFromBytesBE, List.foldl_append]

theorem natFromBytesBE_natToBytesBE (w v : Nat) :
    natFromBytesBE (natToBytesBE w v) = v % 256 ^ w := by
  induction w generalizing v with
  | zero => simp [natToBytesBE, natFromBytesBE, Nat.mod_one]
  | succ w ih =>
      rw [natToBytesBE, natFromBytesBE_append_one, ih]
      have hmul : (256 : Nat) ^ (w + 1) = 256 * 256 ^ w := by ring
      rw [hmul, Nat.mod_mul]
      omega

theorem pack20s_eq_self (s : List Nat) (h : s.length = 20) : pack20s s = s := by
  simp [pack20s, h, List.take_of_length_le (by omega : s.length ≤ 20)]

theorem take_block (xs ys : List Nat) (n : Nat) (h : xs.length = n) :
    (xs ++ ys).take n = xs := by
  rw [← h, List.take_left]

theorem drop_block (xs ys : List Nat) (n : Nat) (h : xs.length = n) :
    (xs ++ ys).drop n = ys :=
  List.drop_left' h

/-- `EntryWF e`: every `!L` field fits in 32 bits, the flags in 16, the
hash is exactly 20 bytes (the constructor's `sha_to_hex` assertion) and
the path contains no NUL byte. -/
def EntryWF (e : GitIndexEntry) : Prop :=
  e.ctime_s < 2 ^ 32 ∧ e.ctime_n < 2 ^ 32 ∧ e.mtime_s < 2 ^ 32 ∧ e.mtime_n < 2 ^ 32 ∧
  e.dev < 2 ^ 32 ∧ e.ino < 2 ^ 32 ∧ e.mode < 2 ^ 32 ∧ e.uid < 2 ^ 32 ∧
  e.gid < 2 ^ 32 ∧ e.size < 2 ^ 32 ∧ e.flags < 2 ^ 16 ∧ e.sha.length = 20 ∧
  (0 : Nat) ∉ e.name

instance (e : GitIndexEntry) : Decidable (EntryWF e) := by
  unfold EntryWF
  infer_instance

/-- Generic reconstruction of the twelve fixed fields from the 62
header bytes. -/
theorem mkEntry_blocks (b1 b2 b3 b4 b5 b6 b7 b8 b9 b10 s f path : List Nat)
    (l1 : b1.length = 4) (l2 : b2.length = 4) (l3 : b3.length = 4)
    (l4 : b4.length = 4) (l5 : b5.length = 4) (l6 : b6.length = 4)
    (l7 : b7.length = 4) (l8 : b8.length = 4) (l9 : b9.length = 4)
    (l10 : b10.length = 4) (ls : s.length = 20) (lf : f.length = 2) :
    mkEntry (b1 ++ (b2 ++ (b3 ++ (b4 ++ (b5 ++ (b6 ++ (b7 ++ (b8 ++ (b9 ++
        (b10 ++ (s ++ f))))))))))) path
      = .ok ⟨natFromBytesBE b1, natFromBytesBE b2, natFromBytesBE b3,
          natFromBytesBE b4, natFromBytesBE b5, natFromBytesBE b6,
          natFromBytesBE b7, natFromBytesBE b8, natFromBytesBE b9,
          natFromBytesBE b10, s, natFromBytesBE f, path⟩ := by
  have hd4 : (b1 ++ (b2 ++ (b3 ++ (b4 ++ (b5 ++ (b6 ++ (b7 ++ (b8 ++ (b9 ++
      (b10 ++ (s ++ f))))))))))).drop 4
      = b2 ++ (b3 ++ (b4 ++ (b5 ++ (b6 ++ (b7 ++ (b8 ++ (b9 ++ (b10 ++ (s ++ f))))))))) :=
    drop_block _ _ _ l1
  have hd8 : (b1 ++ (b2 ++ (b3 ++ (b4 ++ (b5 ++ (b6 ++ (b7 ++ (b8 ++ (b9 ++
      (b10 ++ (s ++ f))))))))))).drop 8
      = b3 ++ (b4 ++ (b5 ++ (b6 ++ (b7 ++ (b8 ++ (b9 ++ (b10 ++ (s ++ f)))))))) := by
    rw [show (8 : Nat) = 4 + 4 from rfl, ← List.drop_drop, hd4]
    exact drop_block _ _ _ l2
  have hd12 : (b1 ++ (b2 ++ (b3 ++ (b4 ++ (b5 ++ (b6 ++ (b7 ++ (b8 ++ (b9 ++
      (b10 ++ (s ++ f))))))))))).drop 12
      = b4 ++ (b5 ++ (b6 ++ (b7 ++ (b8 ++ (b9 ++ (b10 ++ (s ++ f))))))) := by
    rw [show (12 : Nat) = 8 + 4 from rfl, ← List.drop_drop, hd8]
    exact drop_block _ _ _ l3
  have hd16 : (b1 ++ (b2 ++ (b3 ++ (b4 ++ (b5 ++ (b6 ++ (b7 ++ (b8 ++ (b9 ++
      (b10 ++ (s ++ f))))))))))).drop 16
      = b5 ++ (b6 ++ (b7 ++ (b8 ++ (b9 ++ (b10 ++ (s ++ f)))))) := by
    rw [show (16 : Nat) = 12 + 4 from rfl, ← List.drop_drop, hd12]
    exact drop_block _ _ _ l4
  have hd20 : (b1 ++ (b2 ++ (b3 ++ (b4 ++ (b5 ++ (b6 ++ (b7 ++ (b8 ++ (b9 ++
      (b10 ++ (s ++ f))))))))))).drop 20
      = b6 ++ (b7 ++ (b8 ++ (b9 ++ (b10 ++ (s ++ f))))) := by
    rw [show (20 : Nat) = 16 + 4 from rfl, ← List.drop_drop, hd16]
    exact drop_block _ _ _ l5
  have hd24 : (b1 ++ (b2 ++ (b3 ++ (b4 ++ (b5 ++ (b6 ++ (b7 ++ (b8 ++ (b9 ++
      (b10 ++ (s ++ f))))))))))).drop 24
      = b7 ++ (b8 ++ (b9 ++ (b10 ++ (s ++ f)))) := by
    rw [show (24 : Nat) = 20 + 4 from rfl, ← List.drop_drop, hd20]
    exact drop_block _ _ _ l6
  have hd28 : (b1 ++ (b2 ++ (b3 ++ (b4 ++ (b5 ++ (b6 ++ (b7 ++ (b8 ++ (b9 ++
      (b10 ++ (s ++ f))))))))))).drop 28
      = b8 ++ (b9 ++ (b10 ++ (s ++ f))) := by
    rw [show (28 : Nat) = 24 + 4 from rfl, ← List.drop_drop, hd24]
    exact drop_block _ _ _ l7
  have hd32 : (b1 ++ (b2 ++ (b3 ++ (b4 ++ (b5 ++ (b6 ++ (b7 ++ (b8 ++ (b9 ++
      (b10 ++ (s ++ f))))))))))).drop 32
      = b9 ++ (b10 ++ (s ++ f)) := by
    rw [show (32 : Nat) = 28 + 4 from rfl, ← List.drop_drop, hd28]
    exact drop_block _ _ _ l8
  have hd36 : (b1 ++ (b2 ++ (b3 ++ (b4 ++ (b5 ++ (b6 ++ (b7 ++ (b8 ++ (b9 ++
      (b10 ++ (s ++ f))))))))))).drop 36
      = b10 ++ (s ++ f) := by
    rw [show (36 : Nat) = 32 + 4 from rfl, ← List.drop_drop, hd32]
    exact drop_block _ _ _ l9
  have hd40 : (b1 ++ (b2 ++ (b3 ++ (b4 ++ (b5 ++ (b6 ++ (b7 ++ (b8 ++ (b9 ++
      (b10 ++ (s ++ f))))))))))).drop 40
      = s ++ f := by
    rw [show (40 : Nat) = 36 + 4 from rfl, ← List.drop_drop, hd36]
    exact drop_block _ _ _ l10
  have hd60 : (b1 ++ (b2 ++ (b3 ++ (b4 ++ (b5 ++ (b6 ++ (b7 ++ (b8 ++ (b9 ++
      (b10 ++ (s ++ f))))))))))).drop 60
      = f := by
    rw [show (60 : Nat) = 40 + 20 from rfl, ← List.drop_drop, hd40]
    exact drop_block _ _ _ ls
  have hlen : (b1 ++ (b2 ++ (b3 ++ (b4 ++ (b5 ++ (b6 ++ (b7 ++ (b8 ++ (b9 ++
      (b10 ++ (s ++ f))))))))))).length = 62 := by
    simp [l1, l2, l3, l4, l5, l6, l7, l8, l9, l10, ls, lf]
  have hs0 : sliceN (b1 ++ (b2 ++ (b3 ++ (b4 ++ (b5 ++ (b6 ++ (b7 ++ (b8 ++ (b9 ++
      (b10 ++ (s ++ f))))))))))) 0 4 = b1 := by
    simp only [sliceN, List.drop_zero]
    rw [take_block _ _ _ l1]
  have hsha : sliceN (b1 ++ (b2 ++ (b3 ++ (b4 ++ (b5 ++ (b6 ++ (b7 ++ (b8 ++ (b9 ++
      (b10 ++ (s ++ f))))))))))) 40 20 = s := by
    simp only [sliceN, hd40]
    exact take_block _ _ _ ls
  have hflags : sliceN (b1 ++ (b2 ++ (b3 ++ (b4 ++ (b5 ++ (b6 ++ (b7 ++ (b8 ++ (b9 ++
      (b10 ++ (s ++ f))))))))))) 60 2 = f := by
    simp only [sliceN, hd60]
    exact List.take_of_length_le (by omega)
  rw [mkEntry, if_pos hlen]
  rw [hsha, if_pos (by rw [ls])]
  simp only [sliceN, hd4, hd8, hd12, hd16, hd20, hd24, hd28, hd32, hd36, hd60,
    List.drop_zero]
  rw [take_block _ _ _ l1, take_block _ _ _ l2, take_block _ _ _ l3,
    take_block _ _ _ l4, take_block _ _ _ l5, take_block _ _ _ l6,
    take_block _ _ _ l7, take_block _ _ _ l8, take_block _ _ _ l9,
    take_block _ _ _ l10, List.take_of_length_le (by omega : f.length ≤ 2)]

theorem pack20s_length (s : List Nat) : (pack20s s).length = 20 := by
  simp [pack20s]
  omega

theorem entryHeadBytes_length (e : GitIndexEntry) : (entryHeadBytes e).length = 62 := by
  simp [entryHeadBytes, natToBytesBE_length, pack20s_length]

theorem padToMultiple_bounds (n : Nat) :
    n + 1 ≤ padToMultiple n 8 ∧ padToMultiple n 8 ≤ n + 8 := by
  rw [padToMultiple]
  omega

/-- A well-formed entry's 62-byte header deserializes back to the entry. -/
theorem mkEntry_entryHeadBytes (e : GitIndexEntry) (hw : EntryWF e) :
    mkEntry (entryHeadBytes e) e.name = .ok e := by
  obtain ⟨h1, h2, h3, h4, h5, h6, h7, h8, h9, h10, hf, hs, -⟩ := hw
  rw [entryHeadBytes]
  rw [mkEntry_blocks _ _ _ _ _ _ _ _ _ _ _ _ _
    (natToBytesBE_length 4 _) (natToBytesBE_length 4 _) (natToBytesBE_length 4 _)
    (natToBytesBE_length 4 _) (natToBytesBE_length 4 _) (natToBytesBE_length 4 _)
    (natToBytesBE_length 4 _) (natToBytesBE_length 4 _) (natToBytesBE_length 4 _)
    (natToBytesBE_length 4 _) (pack20s_length _) (natToBytesBE_length 2 _)]
  simp only [natFromBytesBE_natToBytesBE, pack20s_eq_self _ hs]
  rw [show (256 : Nat) ^ 4 = 2 ^ 32 from by norm_num,
    show (256 : Nat) ^ 2 = 2 ^ 16 from by norm_num]
  rw [Nat.mod_eq_of_lt h1, Nat.mod_eq_of_lt h2, Nat.mod_eq_of_lt h3,
    Nat.mod_eq_of_lt h4, Nat.mod_eq_of_lt h5, Nat.mod_eq_of_lt h6,
    Nat.mod_eq_of_lt h7, Nat.mod_eq_of_lt h8, Nat.mod_eq_of_lt h9,
    Nat.mod_eq_of_lt h10, Nat.mod_eq_of_lt hf]

theorem packedEntry_wf (e : GitIndexEntry) (hw : EntryWF e) :
    packedEntry e = .ok (packedBytes e) := by
  obtain ⟨h1, h2, h3, h4, h5, h6, h7, h8, h9, h10, hf, -, -⟩ := hw
  rw [packedEntry, packEntryHead,
    if_pos ⟨h1, h2, h3, h4, h5, h6, h7, h8, h9, h10, hf⟩]
  rfl

theorem mapM_packedEntry (entries : List GitIndexEntry)
    (hw : ∀ e ∈ entries, EntryWF e) :
    entries.mapM packedEntry = .ok (entries.map packedBytes) := by
  induction entries with
  | nil => rfl
  | cons e es ih =>
      rw [List.mapM_cons, packedEntry_wf e (hw e (by simp)),
        ih (fun x hx => hw x (by simp [hx]))]
      rfl

theorem packedBytes_length (e : GitIndexEntry) :
    (packedBytes e).length = padToMultiple (62 + e.name.length) 8 := by
  have hb := padToMultiple_bounds (62 + e.name.length)
  simp [packedBytes, entryHeadBytes_length]
  omega

theorem packed_flatten_length_ge (entries : List GitIndexEntry) :
    entries.length ≤ ((entries.map packedBytes).flatten).length := by
  induction entries with
  | nil => simp
  | cons e es ih =>
      simp only [List.map_cons, List.flatten_cons, List.length_append, List.length_cons]
      have h1 : 1 ≤ (packedBytes e).length := by
        rw [packedBytes_length]
        have := padToMultiple_bounds (62 + e.name.length)
        omega
      omega

/-- The read loop, started at the end of the already-consumed prefix of
the entry data, parses exactly the entries whose packed bytes follow —
including a final entry whose padded block ends exactly at the end. -/
theorem readLoop_packed (rest : List GitIndexEntry) :
    ∀ pre fuel, (∀ e ∈ rest, EntryWF e) → rest.length + 1 ≤ fuel →
    readLoop (pre ++ (rest.map packedBytes).flatten) fuel pre.length = .ok rest := by
  induction rest with
  | nil =>
      intro pre fuel _ hfuel
      obtain ⟨f, rfl⟩ : ∃ f, fuel = f + 1 := ⟨fuel - 1, by omega⟩
      simp only [List.map_nil, List.flatten_nil, List.append_nil, readLoop]
      rw [if_neg (by omega)]
  | cons e rest ih =>
      intro pre fuel hw hfuel
      obtain ⟨f, rfl⟩ : ∃ f, fuel = f + 1 := ⟨fuel - 1, by omega⟩
      have hwe : EntryWF e := hw e (by simp)
      have hnul : (0 : Nat) ∉ e.name := hwe.2.2.2.2.2.2.2.2.2.2.2.2
      have hpad := padToMultiple_bounds (62 + e.name.length)
      have hpl1 : 1 ≤ padToMultiple (62 + e.name.length) 8 - 62 - e.name.length := by omega
      have hflat : ((e :: rest).map packedBytes).flatten
          = entryHeadBytes e ++ (e.name ++
              (List.replicate (padToMultiple (62 + e.name.length) 8 - 62 - e.name.length) 0
                ++ (rest.map packedBytes).flatten)) := by
        simp [packedBytes, List.append_assoc]
      rw [hflat]
      have hhl : (entryHeadBytes e).length = 62 := entryHeadBytes_length e
      have hdi : (pre ++ (entryHeadBytes e ++ (e.name ++
          (List.replicate (padToMultiple (62 + e.name.length) 8 - 62 - e.name.length) 0
            ++ (rest.map packedBytes).flatten)))).drop pre.length
          = entryHeadBytes e ++ (e.name ++
              (List.replicate (padToMultiple (62 + e.name.length) 8 - 62 - e.name.length) 0
                ++ (rest.map packedBytes).flatten)) := drop_block _ _ _ rfl
      have hd62 : (pre ++ (entryHeadBytes e ++ (e.name ++
          (List.replicate (padToMultiple (62 + e.name.length) 8 - 62 - e.name.length) 0
            ++ (rest.map packedBytes).flatten)))).drop (pre.length + 62)
          = e.name ++
              (List.replicate (padToMultiple (62 + e.name.length) 8 - 62 - e.name.length) 0
                ++ (rest.map packedBytes).flatten) := by
        rw [← List.drop_drop, hdi]
        exact drop_block _ _ _ hhl
      have hlen : (pre ++ (entryHeadBytes e ++ (e.name ++
          (List.replicate (padToMultiple (62 + e.name.length) 8 - 62 - e.name.length) 0
            ++ (rest.map packedBytes).flatten)))).length
          = pre.length + (62 + (e.name.length +
              ((padToMultiple (62 + e.name.length) 8 - 62 - e.name.length)
                + ((rest.map packedBytes).flatten).length))) := by
        simp [hhl]
      have hcond : pre.length + 62
          < (pre ++ (entryHeadBytes e ++ (e.name ++
              (List.replicate (padToMultiple (62 + e.name.length) 8 - 62 - e.name.length) 0
                ++ (rest.map packedBytes).flatten)))).length := by
        rw [hlen]; omega
      have hrep : List.replicate (padToMultiple (62 + e.name.length) 8 - 62 - e.name.length) 0
          = 0 :: List.replicate (padToMultiple (62 + e.name.length) 8 - 62 - e.name.length - 1) 0 := by
        obtain ⟨k, hk⟩ : ∃ k,
            padToMultiple (62 + e.name.length) 8 - 62 - e.name.length = k + 1 :=
          ⟨padToMultiple (62 + e.name.length) 8 - 62 - e.name.length - 1, by omega⟩
        rw [hk]
        simp [List.replicate_succ]
      have hfind : pyByteIndex (pre ++ (entryHeadBytes e ++ (e.name ++
          (List.replicate (padToMultiple (62 + e.name.length) 8 - 62 - e.name.length) 0
            ++ (rest.map packedBytes).flatten)))) 0 (pre.length + 62)
          = some (pre.length + 62 + e.name.length) := by
        rw [pyByteIndex, hd62, hrep]
        rw [show e.name ++
              ((0 :: List.replicate (padToMultiple (62 + e.name.length) 8 - 62 - e.name.length - 1) 0)
                ++ (rest.map packedBytes).flatten)
              = e.name ++ 0 ::
                  (List.replicate (padToMultiple (62 + e.name.length) 8 - 62 - e.name.length - 1) 0
                    ++ (rest.map packedBytes).flatten) from by simp]
        rw [firstIdx?_of_decomp 0 e.name _ hnul]
        rfl
      have hslice62 : sliceN (pre ++ (entryHeadBytes e ++ (e.name ++
          (List.replicate (padToMultiple (62 + e.name.length) 8 - 62 - e.name.length) 0
            ++ (rest.map packedBytes).flatten)))) pre.length 62 = entryHeadBytes e := by
        rw [sliceN, hdi]
        exact take_block _ _ _ hhl
      have hsliceName : sliceN (pre ++ (entryHeadBytes e ++ (e.name ++
          (List.replicate (padToMultiple (62 + e.name.length) 8 - 62 - e.name.length) 0
            ++ (rest.map packedBytes).flatten)))) (pre.length + 62)
            (pre.length + 62 + e.name.length - (pre.length + 62)) = e.name := by
        rw [show pre.length + 62 + e.name.length - (pre.length + 62) = e.name.length from by
          omega, sliceN, hd62]
        exact take_block _ _ _ rfl
      simp only [readLoop]
      rw [if_pos hcond]
      simp only [hfind]
      rw [hslice62, hsliceName, mkEntry_entryHeadBytes e hwe, except_bind_ok]
      have hrec : readLoop (pre ++ (entryHeadBytes e ++ (e.name ++
          (List.replicate (padToMultiple (62 + e.name.length) 8 - 62 - e.name.length) 0
            ++ (rest.map packedBytes).flatten)))) f
          (pre.length + padToMultiple (62 + (pre.length + 62 + e.name.length - (pre.length + 62))) 8)
          = .ok rest := by
        have h1 := ih (pre ++ packedBytes e) f (fun x hx => hw x (by simp [hx]))
          (by simp only [List.length_cons] at hfuel; omega)
        rw [show (pre ++ packedBytes e) ++ (rest.map packedBytes).flatten
              = pre ++ (entryHeadBytes e ++ (e.name ++
                  (List.replicate (padToMultiple (62 + e.name.length) 8 - 62 - e.name.length) 0
                    ++ (rest.map packedBytes).flatten))) from by
            simp [packedBytes, List.append_assoc]] at h1
        rw [show (pre ++ packedBytes e).length = pre.length + padToMultiple (62 + e.name.length) 8
            from by simp [packedBytes_length]] at h1
        rw [show pre.length + 62 + e.name.length - (pre.length + 62) = e.name.length from by omega]
        exact h1
      rw [hrec]
      rfl

/-- `read_index` on the exact bytes `write_index` emits. -/
theorem readIndex_generic (sha1 : List Nat → List Nat) (entries : List GitIndexEntry)
    (B C body D tail : List Nat)
    (hB : B = natToBytesBE 4 2) (hC : C = natToBytesBE 4 entries.length)
    (hbody : body = (entries.map packedBytes).flatten)
    (hD : D = ([68, 73, 82, 67] ++ (B ++ C)) ++ body)
    (htail : tail = sha1 D) (htlen : tail.length = 20)
    (hw : ∀ e ∈ entries, EntryWF e) (hc : entries.length < 2 ^ 32) :
    readIndex sha1 (D ++ tail) = .ok entries := by
  have hBl : B.length = 4 := by rw [hB]; exact natToBytesBE_length 4 2
  have hCl : C.length = 4 := by rw [hC]; exact natToBytesBE_length 4 _
  have hhl : (([68, 73, 82, 67] : List Nat) ++ (B ++ C)).length = 12 := by
    simp [hBl, hCl]
  have hDl : D.length = 12 + body.length := by
    rw [hD]
    simp [hBl, hCl]
    omega
  have hfl : (D ++ tail).length = D.length + 20 := by simp [htlen]
  have hsub : (D ++ tail).length - 20 = D.length := by omega
  have htk : (D ++ tail).take ((D ++ tail).length - 20) = D := by
    rw [hsub]; exact take_block _ _ _ rfl
  have hdp : (D ++ tail).drop ((D ++ tail).length - 20) = tail := by
    rw [hsub]; exact drop_block _ _ _ rfl
  have hA : sliceN (D ++ tail) 0 4 = [68, 73, 82, 67] := by
    rw [sliceN, List.drop_zero, hD, List.append_assoc, List.append_assoc]
    exact take_block _ _ _ rfl
  have hd4 : (D ++ tail).drop 4 = (B ++ C) ++ (body ++ tail) := by
    rw [hD, List.append_assoc, List.append_assoc]
    exact drop_block _ _ _ rfl
  have hB4 : sliceN (D ++ tail) 4 4 = B := by
    rw [sliceN, hd4, List.append_assoc]
    exact take_block _ _ _ hBl
  have hd8 : (D ++ tail).drop 8 = C ++ (body ++ tail) := by
    rw [show (8 : Nat) = 4 + 4 from rfl, ← List.drop_drop, hd4, List.append_assoc]
    exact drop_block _ _ _ hBl
  have hC4 : sliceN (D ++ tail) 8 4 = C := by
    rw [sliceN, hd8]
    exact take_block _ _ _ hCl
  have hd12 : D.drop 12 = body := by
    rw [hD]
    exact drop_block _ _ _ hhl
  rw [readIndex]
  rw [if_neg (by rw [htk, hdp]; simp [htail])]
  rw [if_neg (by rw [List.length_take]; omega)]
  rw [if_neg (by rw [hA]; simp)]
  rw [if_neg (by rw [hB4, hB, natFromBytesBE_natToBytesBE]; norm_num)]
  rw [htk, hd12]
  have hge := packed_flatten_length_ge entries
  rw [← hbody] at hge
  have hloop : readLoop body (body.length + 1) 0 = .ok entries := by
    have h1 := readLoop_packed entries [] (body.length + 1) hw (by omega)
    rw [← hbody] at h1
    simpa using h1
  rw [hloop, except_bind_ok]
  rw [if_pos (by rw [hC4, hC, natFromBytesBE_natToBytesBE,
    show (256 : Nat) ^ 4 = 2 ^ 32 from by norm_num, Nat.mod_eq_of_lt hc])]

theorem drop_take_sha (sha1 : List Nat → List Nat) (D : List Nat)
    (h20 : (sha1 D).length = 20) :
    (D ++ sha1 D).drop ((D ++ sha1 D).length - 20)
      = sha1 ((D ++ sha1 D).take ((D ++ sha1 D).length - 20)) := by
  have hl : (D ++ sha1 D).length = D.length + 20 := by simp [h20]
  have hsub : (D ++ sha1 D).length - 20 = D.length := by omega
  rw [hsub, drop_block _ _ _ rfl, take_block _ _ _ rfl]

/-- Lexicographic order on byte strings (Python comparison of `bytes`),
used by the `entries.sort(key=lambda e: e.name)` in `add_all`. -/
def bytesLt : List Nat → List Nat → Bool
  | [], [] => false
  | [], _ :: _ => true
  | _ :: _, [] => false
  | a :: as, b :: bs => if a < b then true else if b < a then false else bytesLt as bs

def insertByName (e : GitIndexEntry) : List GitIndexEntry → List GitIndexEntry
  | [] => [e]
  | x :: xs => if bytesLt e.name x.name then e :: x :: xs else x :: insertByName e xs

/-- Stable sort of index entries by path name (what `add_all` does
before calling `write_index`; `write_index` itself does not sort). -/
def sortByName : List GitIndexEntry → List GitIndexEntry
  | [] => []
  | e :: es => insertByName e (sortByName es)

/-! ## The `commit` pipeline (`src/wyag/frontend.py`) -/

def natToOctBytesGo : Nat → Nat → List Nat
  | 0, _ => []
  | fuel + 1, n => if n < 8 then [48 + n] else natToOctBytesGo fuel (n / 8) ++ [48 + n % 8]

/-- Python `'{:o}'.format(n)`. -/
def natToOctBytes (n : Nat) : List Nat := natToOctBytesGo (n + 1) n

/-- The `b''.join(tree_entries)` built by `tree_write` in
`src/wyag/frontend.py`: for each index entry,
`'{:o} {}'.format(entry.mode, entry.name)`, a NUL, then the raw
20-byte `entry.obj` hash; asserts the name holds no `/`. -/
def treeWriteData : List GitIndexEntry → Except ObjErr (List Nat)
  | [] => .ok []
  | e :: es =>
      if 47 ∈ e.name then .error .assertionError
      else (treeWriteData es).map fun rest =>
        (natToOctBytes e.mode ++ 32 :: (e.name ++ 0 :: e.sha)) ++ rest

/-- `tree_hash(fd, repo)` = `object_write(GitTree(repo, data))`: the
constructor deserializes via `tree_parse`, `object_write` re-serializes
via `tree_serialize`, prepends the `tree <size> NUL` header and hashes
the result; the SHA-1 hex digest (40 ASCII bytes) is a parameter. -/
def treeHashE (sha1hex : List Nat → List Nat) (data : List Nat) :
    Except ObjErr (List Nat) :=
  (treeParse data).bind fun items =>
    (treeSerialize items).map fun ser =>
      sha1hex ([116, 114, 101, 101] ++ 32 :: (natToDecBytes ser.length ++ 0 :: ser))

/-- Python `str.strip()` on the ASCII contents the source reads. -/
def stripBytes (bs : List Nat) : List Nat :=
  ((bs.dropWhile wsByte).reverse.dropWhile wsByte).reverse

/-- Python `'{:02}'.format(n)`. -/
def pad2 (n : Nat) : List Nat := if n < 10 then 48 :: natToDecBytes n else natToDecBytes n

/-- `author_timestamp()` with the clock and the timezone as parameters:
`'{} {}{:02}{:02}'.format(timestamp, '+' if utc_offset > 0 else '-',
abs(utc_offset) // 3600, (abs(utc_offset) // 60) % 60)`. -/
def authorTimestamp (timestamp : Nat) (utcOffset : Int) : List Nat :=
  natToDecBytes timestamp ++ 32 ::
    ((if utcOffset > 0 then [43] else [45]) ++
      (pad2 (utcOffset.natAbs / 3600) ++ pad2 ((utcOffset.natAbs / 60) % 60)))

/-- `commit(author, message)` from `src/wyag/frontend.py`, with the
SHA-1 hex digest, the clock, the timezone, the `refs/heads/master`
contents (`none` = `FileNotFoundError`) and the index as parameters.
An empty index raises; `tree_write` builds the tree data and
`tree_hash` writes it (parsing and re-serializing it on the way); the
payload is `'\n'.join(lines)`; `generic_object_hash` stores
`kvlm_serialize(kvlm_parse(data))` under a `commit <size> NUL` header;
`refs/heads/master` is overwritten with the hash plus a newline.
Returns `(data, stored payload, sha, new master contents)`. -/
def commitFr (sha1hex : List Nat → List Nat) (timestamp : Nat) (utcOffset : Int)
    (masterFile : Option (List Nat)) (index : List GitIndexEntry)
    (author message : List Nat) :
    Except ObjErr (List Nat × List Nat × List Nat × List Nat) :=
  if index.length = 0 then .error .indexValueError
  else
    (treeWriteData index).bind fun tdata =>
      (treeHashE sha1hex tdata).bind fun shaTree =>
        let parentLines : List (List Nat) :=
          match masterFile with
          | none => []
          | some content =>
              if stripBytes content ≠ [] then
                [[112, 97, 114, 101, 110, 116] ++ 32 :: stripBytes content]
              else []
        let lines : List (List Nat) :=
          ([116, 114, 101, 101] ++ 32 :: shaTree) :: parentLines ++
            [[97, 117, 116, 104, 111, 114] ++ 32 ::
                (author ++ 32 :: authorTimestamp timestamp utcOffset),
             [99, 111, 109, 109, 105, 116, 116, 101, 114] ++ 32 ::
                (author ++ 32 :: authorTimestamp timestamp utcOffset),
             [], message, []]
        let data := List.intercalate [10] lines
        match kvlmParse data with
        | .error e => .error (.kvlmErr e)
        | .ok m =>
            match kvlmSerialize m with
            | .error e => .error (.kvlmErr e)
            | .ok ser =>
                .ok (data, ser,
                  sha1hex ([99, 111, 109, 109, 105, 116] ++ 32 ::
                    (natToDecBytes ser.length ++ 0 :: ser)),
                  sha1hex ([99, 111, 109, 109, 105, 116] ++ 32 ::
                    (natToDecBytes ser.length ++ 0 :: ser)) ++ [10])

/-- C1 (amended): for every list of well-formed index entries (32-bit
fields, 16-bit flags, 20-byte hash, NUL-free path) whose count fits the
32-bit header field, `read_index(write_index(entries))` returns exactly
the entries **in their stored order** (`write_index` does not sort; the
sort happens earlier, in `add_all`), parsing every entry including a
final one whose padded block ends exactly at the end of the entry data,
with the parsed count equal to the header count; and the written file's
trailing 20 bytes are the SHA-1 of everything before them. -/
theorem c1_index_roundtrip (sha1 : List Nat → List Nat)
    (h20 : ∀ x, (sha1 x).length = 20)
    (entries : List GitIndexEntry)
    (hw : ∀ e ∈ entries, EntryWF e)
    (hc : entries.length < 2 ^ 32) :
    (writeIndex sha1 entries).bind (readIndex sha1) = .ok entries ∧
    ∀ file, writeIndex sha1 entries = .ok file →
      file.drop (file.length - 20) = sha1 (file.take (file.length - 20)) := by
  have hpack := mapM_packedEntry entries hw
  have hwrite : writeIndex sha1 entries
      = .ok ((([68, 73, 82, 67] ++ (natToBytesBE 4 2 ++ natToBytesBE 4 entries.length))
          ++ (entries.map packedBytes).flatten)
        ++ sha1 ((([68, 73, 82, 67] ++ (natToBytesBE 4 2 ++ natToBytesBE 4 entries.length))
          ++ (entries.map packedBytes).flatten))) := by
    rw [writeIndex, hpack, except_bind_ok, if_pos hc]
  constructor
  · rw [hwrite, except_bind_ok]
    exact readIndex_generic sha1 entries _ _ _ _ _ rfl rfl rfl rfl rfl (h20 _) hw hc
  · intro file hfile
    rw [hwrite] at hfile
    injection hfile with hfile
    subst hfile
    exact drop_take_sha sha1 _ (h20 _)

set_option maxRecDepth 100000 in
/-- C1 counterexample: `write_index` stores the entries as given and
`read_index` returns them in that stored order, so for input whose names
are out of order the round-trip does NOT yield the entries sorted by
name (the claimed `entries_sorted_by_name`). -/
theorem c1_counterexample :
    (writeIndex (fun _ => List.replicate 20 0)
        [⟨0, 0, 0, 0, 0, 0, 0, 0, 0, 0, List.replicate 20 0, 1, [98]⟩,
         ⟨0, 0, 0, 0, 0, 0, 0, 0, 0, 0, List.replicate 20 0, 1, [97]⟩]).bind
      (readIndex (fun _ => List.replicate 20 0))
      = .ok [⟨0, 0, 0, 0, 0, 0, 0, 0, 0, 0, List.replicate 20 0, 1, [98]⟩,
             ⟨0, 0, 0, 0, 0, 0, 0, 0, 0, 0, List.replicate 20 0, 1, [97]⟩] ∧
    sortByName
        [⟨0, 0, 0, 0, 0, 0, 0, 0, 0, 0, List.replicate 20 0, 1, [98]⟩,
         ⟨0, 0, 0, 0, 0, 0, 0, 0, 0, 0, List.replicate 20 0, 1, [97]⟩]
      = [⟨0, 0, 0, 0, 0, 0, 0, 0, 0, 0, List.replicate 20 0, 1, [97]⟩,
         ⟨0, 0, 0, 0, 0, 0, 0, 0, 0, 0, List.replicate 20 0, 1, [98]⟩] ∧
    ([⟨0, 0, 0, 0, 0, 0, 0, 0, 0, 0, List.replicate 20 0, 1, [98]⟩,
      ⟨0, 0, 0, 0, 0, 0, 0, 0, 0, 0, List.replicate 20 0, 1, [97]⟩]
        : List GitIndexEntry)
      ≠ [⟨0, 0, 0, 0, 0, 0, 0, 0, 0, 0, List.replicate 20 0, 1, [97]⟩,
         ⟨0, 0, 0, 0, 0, 0, 0, 0, 0, 0, List.replicate 20 0, 1, [98]⟩] := by
  refine ⟨by decide, by decide, by decide⟩

/-- C1 witness: the round-trip theorem applied to one concrete entry
and a constant 20-byte hash function. -/
theorem c1_witness :
    (writeIndex (fun _ => List.replicate 20 0)
        [⟨0, 0, 0, 0, 0, 0, 0, 0, 0, 0, List.replicate 20 0, 1, [97]⟩]).bind
      (readIndex (fun _ => List.replicate 20 0))
      = .ok [⟨0, 0, 0, 0, 0, 0, 0, 0, 0, 0, List.replicate 20 0, 1, [97]⟩] :=
  (c1_index_roundtrip (fun _ => List.replicate 20 0) (fun _ => rfl)
    [⟨0, 0, 0, 0, 0, 0, 0, 0, 0, 0, List.replicate 20 0, 1, [97]⟩]
    (by decide) (by decide)).1

set_option maxRecDepth 100000 in
/-- C8: the commit pipeline.  First conjunct — the bug: for a one-entry
index whose stored 20-byte hash renders to hex with a letter in it
(here `...0a`, i.e. virtually any real SHA-1), `commit` raises
`ValueError` inside `tree_write → tree_hash → GitTree → tree_parse_one`
(`int(sha)` parses the hex string in base 10), so no payload is built
and master is not updated.  Second conjunct: on an index entry whose
hash bytes survive that parse (hex digits only), the payload is exactly
`tree <sha>` NL `parent <master>` NL `author A 5 -0000` NL
`committer A 5 -0000` NL NL `m` NL, the stored payload equals it, and
the new master contents are the commit hash plus a newline.  Third
conjunct: when `refs/heads/master` exists but strips to empty, the
`parent` line is omitted even though master exists. -/
theorem c8_commit_pipeline :
    commitFr (fun _ => List.replicate 40 48) 5 0 none
        [⟨0, 0, 0, 0, 0, 0, 33188, 0, 0, 0, List.replicate 19 0 ++ [10], 1, [97]⟩]
        [65] [109]
      = .error .intParseError ∧
    commitFr (fun _ => List.replicate 40 48) 5 0 (some [97, 98, 99, 10])
        [⟨0, 0, 0, 0, 0, 0, 33188, 0, 0, 0, List.replicate 19 0 ++ [9], 1, [97]⟩]
        [65] [109]
      = .ok (([116, 114, 101, 101, 32] ++ List.replicate 40 48
            ++ [10, 112, 97, 114, 101, 110, 116, 32, 97, 98, 99]
            ++ [10, 97, 117, 116, 104, 111, 114, 32, 65, 32, 53, 32, 45, 48, 48, 48, 48]
            ++ [10, 99, 111, 109, 109, 105, 116, 116, 101, 114, 32, 65, 32, 53, 32,
                45, 48, 48, 48, 48]
            ++ [10, 10, 109, 10],
          [116, 114, 101, 101, 32] ++ List.replicate 40 48
            ++ [10, 112, 97, 114, 101, 110, 116, 32, 97, 98, 99]
            ++ [10, 97, 117, 116, 104, 111, 114, 32, 65, 32, 53, 32, 45, 48, 48, 48, 48]
            ++ [10, 99, 111, 109, 109, 105, 116, 116, 101, 114, 32, 65, 32, 53, 32,
                45, 48, 48, 48, 48]
            ++ [10, 10, 109, 10],
          List.replicate 40 48,
          List.replicate 40 48 ++ [10])) ∧
    commitFr (fun _ => List.replicate 40 48) 5 0 (some [10])
        [⟨0, 0, 0, 0, 0, 0, 33188, 0, 0, 0, List.replicate 19 0 ++ [9], 1, [97]⟩]
        [65] [109]
      = .ok (([116, 114, 101, 101, 32] ++ List.replicate 40 48
            ++ [10, 97, 117, 116, 104, 111, 114, 32, 65, 32, 53, 32, 45, 48, 48, 48, 48]
            ++ [10, 99, 111, 109, 109, 105, 116, 116, 101, 114, 32, 65, 32, 53, 32,
                45, 48, 48, 48, 48]
            ++ [10, 10, 109, 10],
          [116, 114, 101, 101, 32] ++ List.replicate 40 48
            ++ [10, 97, 117, 116, 104, 111, 114, 32, 65, 32, 53, 32, 45, 48, 48, 48, 48]
            ++ [10, 99, 111, 109, 109, 105, 116, 116, 101, 114, 32, 65, 32, 53, 32,
                45, 48, 48, 48, 48]
            ++ [10, 10, 109, 10],
          List.replicate 40 48,
          List.replicate 40 48 ++ [10])) := by
  refine ⟨by decide, by decide, by decide⟩

end Wyag

